import Mathlib

/-!
Verification of `list-scan.go`: probe classification, persistence, dispatch
and the admission gate.

A shallow embedding of `src/list-scan.go`.

* Go strings are Lean `String`s; byte-level helpers work on `List Char`.
* `checkVulnerability` is stateful: it talks to the network and to the file
  system.  The embedding threads a `World` (file-system state plus the trace
  of effects performed so far) through the function and takes the behaviour
  of everything outside the repository (URL parser, HTTP transport, JSON
  serialiser, `os` calls) from an `Env` record, so every theorem holds for
  every behaviour of those collaborators.
* A response body is the JSON value the decoder's scanner accepts; decoding
  it fails when a number is outside the float64 range.
* Go's `(value, error)` results are `Except String _`.
* `strings.Split`, `strings.TrimPrefix`, `filepath.Join` (Unix) and the
  regular-expression fragment of line 150 are modelled concretely.
* The goroutines of `main` are a step relation on `Gate`: the loop starts a
  job, a job takes a semaphore token, a job runs its body and gives the token
  back.  A job body is one atomic step.
-/

namespace ListScan

set_option exponentiation.threshold 2000

/-! ## Library helpers used by the source -/

/-- Pieces of a string between occurrences of the separator character
(`strings.Split` with a one-byte separator); never the empty list. -/
def splitChar (sep : Char) : List Char → List (List Char)
  | [] => [[]]
  | c :: cs =>
    if c = sep then [] :: splitChar sep cs
    else
      match splitChar sep cs with
      | [] => [[c]]
      | p :: ps => (c :: p) :: ps

/-- The call `strings.Split(s, ".")[0]` of line 51: the text before the first dot. -/
def firstLabel (hostname : String) : String :=
  match splitChar '.' hostname.data with
  | p :: _ => String.mk p
  | [] => ""

/-- Go's `strings.TrimPrefix` on character lists: the prefix is removed when
the string starts with it. -/
def trimPrefixChars (s pre : List Char) : List Char :=
  if pre.isPrefixOf s then s.drop pre.length else s

/-- Go's `strings.TrimPrefix(s, pre)`. -/
def stringsTrimPrefix (s pre : String) : String :=
  String.mk (trimPrefixChars s.data pre.data)

/-- One step of the component loop of `path/filepath.Clean` (Unix): the stack
holds the components kept so far, innermost first. -/
def cleanStep (rooted : Bool) (stack : List (List Char)) (comp : List Char) :
    List (List Char) :=
  if comp = [] ∨ comp = ['.'] then stack
  else if comp = ['.', '.'] then
    match stack with
    | top :: below => if top = ['.', '.'] then comp :: stack else below
    | [] => if rooted then [] else [comp]
  else comp :: stack

/-- Components joined with a slash. -/
def joinSlash : List (List Char) → List Char
  | [] => []
  | [c] => c
  | c :: d :: rest => c ++ '/' :: joinSlash (d :: rest)

/-- Go's `path/filepath.Clean` on Unix paths. -/
def filepathClean (path : List Char) : List Char :=
  let rooted := path.head? = some '/'
  let stack := (splitChar '/' path).foldl (cleanStep rooted) []
  let body := joinSlash stack.reverse
  let out := if rooted then '/' :: body else body
  if out = [] then ['.'] else out

/-- Go's `path/filepath.Join` on Unix: leading empty elements are dropped, the
rest is joined with slashes and cleaned; no non-empty element gives the empty
string. -/
def filepathJoinChars : List (List Char) → List Char
  | [] => []
  | e :: es => if e = [] then filepathJoinChars es else filepathClean (joinSlash (e :: es))

/-- Go's `path/filepath.Join(a, b)`. -/
def filepathJoin (a b : String) : String :=
  String.mk (filepathJoinChars [a.data, b.data])

/-- A path component that `filepath.Clean` keeps as it is. -/
def PlainComp (c : List Char) : Prop :=
  c ≠ [] ∧ '/' ∉ c ∧ c ≠ ['.'] ∧ c ≠ ['.', '.']

/-- The components of a job's file for a label and a file name without a
slash: an empty label adds no directory below `result`. -/
def pathComps (label file : List Char) : List (List Char) :=
  if label = [] then ["result".data, file] else ["result".data, label, file]

/-! ## Data model -/

deriving instance DecidableEq for Except

/-- JSON values as `encoding/json` reads them and, once decoded into
`interface{}`, holds them: nil, bool, a number (the literal, as
`mantissa * 10 ^ exp10`; decoding turns it into a float64), string,
`[]interface{}` and `map[string]interface{}` (an association list; a key's
value is its first entry). -/
inductive JVal where
  | null
  | bool (b : Bool)
  | num (mantissa exp10 : Int)
  | str (s : String)
  | arr (items : List JVal)
  | obj (entries : List (String × JVal))

/-- The least magnitude that `strconv.ParseFloat(s, 64)` rounds to infinity:
half a unit in the last place above the largest float64. -/
def float64Limit : Nat := 2 ^ 1024 - 2 ^ 970

/-- The number literal `mantissa * 10 ^ exp10` is outside the float64 range:
`ParseFloat` reports a range error. -/
def overflowsFloat64 (mantissa exp10 : Int) : Bool :=
  if 0 ≤ exp10 then decide (float64Limit ≤ mantissa.natAbs * 10 ^ exp10.toNat)
  else decide (float64Limit * 10 ^ (-exp10).toNat ≤ mantissa.natAbs)

mutual
/-- Every number of the value converts to a float64. -/
def JVal.fits : JVal → Bool
  | .num m e => !overflowsFloat64 m e
  | .arr items => fitsItems items
  | .obj entries => fitsEntries entries
  | _ => true
/-- Every number of the items converts to a float64. -/
def fitsItems : List JVal → Bool
  | [] => true
  | v :: rest => v.fits && fitsItems rest
/-- Every number of the members converts to a float64. -/
def fitsEntries : List (String × JVal) → Bool
  | [] => true
  | (_, v) :: rest => v.fits && fitsEntries rest
end

/-- An `http.Cookie` as far as the scanner forwards it. -/
structure Cookie where
  name : String
  value : String
deriving DecidableEq, Repr

/-- The request built by lines 35-55. -/
structure Request where
  method : String
  url : String
  body : String
  cookies : List Cookie
  headers : List (String × String)
deriving DecidableEq, Repr

/-- An HTTP response as the probe reads it: the status code and the JSON
value the decoder's scanner reads from the body (`none` when the scanner
rejects the body). -/
structure Response where
  statusCode : Int
  body : Option JVal

/-- What `url.Parse` returns, as far as the scanner uses it. -/
structure ParsedURL where
  hostname : String
deriving DecidableEq, Repr

/-- Effects of a probe, in the order performed. -/
inductive Event where
  | newRequest (method url body : String)
  | send (req : Request)
  | print (text : String)
  | mkdirAll (path : String)
  | create (path : String)
  | write (path data : String)
  | close (path : String)
deriving DecidableEq, Repr

/-- The file system (of any type `σ`) and the effects performed so far. -/
structure World (σ : Type) where
  fs : σ
  trace : List Event

/-- Append an effect to the trace. -/
def World.log {σ : Type} (w : World σ) (e : Event) : World σ :=
  { w with trace := w.trace ++ [e] }

/-- Replace the file-system state. -/
def World.setFs {σ : Type} (w : World σ) (fs : σ) : World σ :=
  { w with fs := fs }

/-- Behaviour of the collaborators outside the repository.  The `os` calls
return the error, if any, and the file system they leave behind.
`json.Marshal` is total here: it is only called on a list the decoder
produced (nil, bools, finite floats, strings, slices and string-keyed maps),
on which it cannot fail, so the `err != nil` branch of lines 89-92 is never
taken. -/
structure Env (σ : Type) where
  urlParse : String → Except String ParsedURL
  roundTrip : Request → Except String Response
  marshal : List JVal → String
  mkdirAll : σ → String → Option String × σ
  create : σ → String → Option String × σ
  write : σ → String → String → Option String × σ

/-- Decoding the body into a `map[string]interface{}` (line 65): JSON null
leaves the map nil without error; an object fills it, and `Decode` returns an
error when one of its numbers is outside the float64 range; anything else is
an error. -/
def decodeMap : Option JVal → Except String (Option (List (String × JVal)))
  | none => .error "invalid character looking for beginning of value"
  | some .null => .ok none
  | some (.obj kvs) =>
    if fitsEntries kvs then .ok (some kvs)
    else .error "json: cannot unmarshal number into Go value of type float64"
  | some _ => .error "json: cannot unmarshal into Go value of type map[string]interface \x7b\x7d"

/-- Indexing a Go map that may be nil. -/
def mapIndex (m : Option (List (String × JVal))) (key : String) : Option JVal :=
  match m with
  | none => none
  | some kvs => kvs.lookup key

/-- The type assertion `v.(map[string]interface{})`. -/
def asObject : Option JVal → Option (List (String × JVal))
  | some (.obj kvs) => some kvs
  | _ => none

/-- The type assertion `v.([]interface{})`. -/
def asArray : Option JVal → Option (List JVal)
  | some (.arr xs) => some xs
  | _ => none

/-- The URL probed for a table (line 35). -/
def probeURL (baseURL table : String) : String :=
  baseURL ++ "/api/now/sp/widget/widget-simple-list?" ++ table

/-- The request of lines 36-55. -/
def probeRequest (baseURL gCkValue : String) (cookies : List Cookie) (table : String) :
    Request :=
  { method := "POST"
    url := probeURL baseURL table
    body := "\x7b\x7d"
    cookies := cookies
    headers := [("X-UserToken", gCkValue), ("Content-Type", "application/json"),
      ("Accept", "application/json")] }

/-- Lines 94-95: the directory of a host. -/
def dirPathOf (subdomain : String) : String := filepathJoin "result" subdomain

/-- Line 102: the file of a table inside a host directory. -/
def fileNameOf (subdomain table : String) : String :=
  filepathJoin (dirPathOf subdomain) (stringsTrimPrefix table "t=" ++ ".json")

/-- Lines 87-118: the branch taken when `list` is a non-empty array. -/
def persistLeak {σ : Type} (env : Env σ) (reqURL subdomain table : String)
    (list : List JVal) (vulnerableURLs : List String) (w : World σ) :
    Except String (List String) × World σ :=
  let w := w.log (.print (reqURL ++ " is EXPOSED, and LEAKING data. Check ACLs ASAP.\n"))
  let listJSON := env.marshal list
  let dirPath := dirPathOf subdomain
  let w := w.log (.mkdirAll dirPath)
  match env.mkdirAll w.fs dirPath with
  | (some e, fs) => (.error ("error creating directory: " ++ e), w.setFs fs)
  | (none, fs) =>
    let w := w.setFs fs
    let fileName := fileNameOf subdomain table
    let w := w.log (.create fileName)
    match env.create w.fs fileName with
    | (some e, fs) =>
      ((.error e), (w.setFs fs).log (.print ("Error creating file: " ++ e ++ "\n")))
    | (none, fs) =>
      let w := w.setFs fs
      let w := w.log (.write fileName listJSON)
      match env.write w.fs fileName listJSON with
      | (some e, fs) =>
        (.error e,
          ((w.setFs fs).log (.print ("Error writing to file: " ++ e ++ "\n"))).log
            (.close fileName))
      | (none, fs) =>
        (.ok (vulnerableURLs ++ [reqURL]), (w.setFs fs).log (.close fileName))

/-- Lines 63-124: classification of the response. -/
def classify {σ : Type} (env : Env σ) (reqURL subdomain table : String)
    (vulnerableURLs : List String) (resp : Response) (w : World σ) :
    Except String (List String) × World σ :=
  if resp.statusCode = 200 ∨ resp.statusCode = 201 then
    match decodeMap resp.body with
    | .error e => (.error e, w)
    | .ok response =>
      match asObject (mapIndex response "result") with
      | none => (.error ("unexpected response structure from " ++ reqURL), w)
      | some result =>
        match asObject (mapIndex (some result) "data") with
        | none => (.error ("no data key in response from " ++ reqURL), w)
        | some data =>
          match asArray (mapIndex (some data) "list") with
          | none => (.ok vulnerableURLs, w)
          | some list =>
            if list.length = 0 then
              (.ok vulnerableURLs,
                w.log (.print (reqURL ++
                  " is EXPOSED, but data is NOT leaking likely because ACLs are blocking. Mark Widgets as not Public.\n")))
            else persistLeak env reqURL subdomain table list vulnerableURLs w
  else
    (.error ("received status code " ++ toString resp.statusCode ++ " for " ++ reqURL), w)

/-- The function `checkVulnerability` (lines 27-125).  `http.NewRequest` fails
exactly when `url.Parse` rejects the request URL (the method is the constant
POST). -/
def checkVulnerability {σ : Type} (env : Env σ) (baseURL gCkValue : String)
    (cookies : List Cookie) (fastCheck : Bool) (table : String) (w : World σ) :
    Except String (List String) × World σ :=
  if fastCheck && table != "t=kb_knowledge" then (.ok [], w)
  else
    let vulnerableURLs : List String := []
    let reqURL := probeURL baseURL table
    let w := w.log (.newRequest "POST" reqURL "\x7b\x7d")
    match env.urlParse reqURL with
    | .error e => (.error e, w)
    | .ok _ =>
      let req := probeRequest baseURL gCkValue cookies table
      match env.urlParse baseURL with
      | .error e => (.error ("error parsing URL " ++ baseURL ++ ": " ++ e), w)
      | .ok parsedURL =>
        let subdomain := firstLabel parsedURL.hostname
        let w := w.log (.send req)
        match env.roundTrip req with
        | .error e => (.error e, w)
        | .ok resp => classify env reqURL subdomain table vulnerableURLs resp w

/-! ## The job body of `main` -/

/-- The struct `CheckResult` of lines 21-25. -/
structure CheckResult where
  URL : String
  Vulnerable : Bool
  Table : String
deriving DecidableEq, Repr

/-- The arguments of one goroutine of line 245. -/
structure ProbeJob where
  url : String
  table : String
  gCk : String
  cookies : List Cookie
deriving DecidableEq, Repr

/-- Shared state of `main` while jobs run: the world, the flag
`anyVulnerable` (an int32) and what has been sent on the channel `results`. -/
structure ScanState (σ : Type) where
  world : World σ
  anyVulnerable : Int
  results : List CheckResult

/-- Lines 251-262: what a goroutine does with the probe's return value: on
an error it prints and sends a non-vulnerable result; otherwise it sets the
flag when the returned slice is non-empty and sends the result. -/
def report {σ : Type} (job : ProbeJob) (r : Except String (List String))
    (s : ScanState σ) : ScanState σ :=
  match r with
  | .error e =>
    { world := s.world.log
        (.print ("Error checking vulnerability for " ++ job.url ++ ": " ++ e ++ "\n"))
      anyVulnerable := s.anyVulnerable
      results := s.results ++ [{ URL := job.url, Vulnerable := false, Table := job.table }] }
  | .ok vulnerableUrls =>
    let isVulnerable := decide (vulnerableUrls.length > 0)
    { world := s.world
      anyVulnerable := if isVulnerable then 1 else s.anyVulnerable
      results := s.results ++
        [{ URL := job.url, Vulnerable := isVulnerable, Table := job.table }] }

/-- Lines 250-262: the work of one goroutine between acquiring and releasing
the semaphore. -/
def jobBody {σ : Type} (env : Env σ) (fastCheck : Bool) (job : ProbeJob)
    (s : ScanState σ) : ScanState σ :=
  let out := checkVulnerability env job.url job.gCk job.cookies fastCheck job.table s.world
  report job out.1 { s with world := out.2 }

/-- The state of `main` before any job runs (lines 232-234). -/
def initScan {σ : Type} (w : World σ) : ScanState σ :=
  { world := w, anyVulnerable := 0, results := [] }

/-- Lines 276-280: the line printed at the end. -/
def finalVerdict (anyVulnerable : Int) : String :=
  if anyVulnerable = 1 then "Scanning completed. Vulnerable URLs found."
  else "Scanning completed. No vulnerable URLs found."

/-- Probe returns handled one after the other, in the order given. -/
def reportAll {σ : Type} (done : List (ProbeJob × Except String (List String)))
    (s : ScanState σ) : ScanState σ :=
  done.foldl (fun st jr => report jr.1 jr.2 st) s

/-- A probe outcome in the spec's words: vulnerable when the probe returned no
error and a non-empty result. -/
def vulnerableOutcome : Except String (List String) → Bool
  | .ok (_ :: _) => true
  | _ => false

/-- The outcome of a job in the spec's words: host, table and whether the
probe's return value is vulnerable. -/
def outcomeOf (jr : ProbeJob × Except String (List String)) : CheckResult :=
  { URL := jr.1.url, Vulnerable := vulnerableOutcome jr.2, Table := jr.1.table }

/-- Job bodies run one after the other, in the order given. -/
def runJobs {σ : Type} (env : Env σ) (fastCheck : Bool) (jobs : List ProbeJob)
    (s : ScanState σ) : ScanState σ :=
  jobs.foldl (fun st job => jobBody env fastCheck job st) s

/-- What the probe of each job returned when the job bodies run one after the
other in the order given: each probe sees the world its predecessors left. -/
def probeReturns {σ : Type} (env : Env σ) (fastCheck : Bool) :
    List ProbeJob → ScanState σ → List (ProbeJob × Except String (List String))
  | [], _ => []
  | job :: rest, s =>
    (job, (checkVulnerability env job.url job.gCk job.cookies fastCheck job.table s.world).1) ::
      probeReturns env fastCheck rest (jobBody env fastCheck job s)

/-! ## Token extraction (`getGCKAndCookies`) -/

/-- The fragment of regular-expression syntax used by the pattern of line
150: literal text, a greedy `+` over a character class given by ranges,
concatenation and a capturing group. -/
inductive Re where
  | str (text : List Char)
  | plusClass (ranges : List (Char × Char))
  | cat (a b : Re)
  | group (r : Re)

/-- Membership in a character class given by inclusive ranges. -/
def inClass (ranges : List (Char × Char)) (c : Char) : Bool :=
  ranges.any fun r => decide (r.1 ≤ c) && decide (c ≤ r.2)

/-- Ways a greedy `+` over a class can match at the start of the input, longest
first: the text matched and the input left. -/
def plusRuns (ranges : List (Char × Char)) : List Char → List (List Char × List Char)
  | [] => []
  | c :: cs =>
    if inClass ranges c then
      (plusRuns ranges cs).map (fun mr => (c :: mr.1, mr.2)) ++ [([c], cs)]
    else []

/-- Backtracking matcher anchored at the start of the input: all ways the
expression can match, in the order a leftmost-first engine prefers them; each
way gives the text matched, the input left and the texts of the groups. -/
def Re.run : Re → List Char → List (List Char × List Char × List (List Char))
  | .str text, inp =>
    if text.isPrefixOf inp then [(text, inp.drop text.length, [])] else []
  | .plusClass ranges, inp => (plusRuns ranges inp).map fun mr => (mr.1, mr.2, [])
  | .cat a b, inp =>
    (a.run inp).flatMap fun x =>
      (b.run x.2.1).map fun y => (x.1 ++ y.1, y.2.1, x.2.2 ++ y.2.2)
  | .group r, inp => (r.run inp).map fun x => (x.1, x.2.1, x.1 :: x.2.2)

/-- Go's `Regexp.FindStringSubmatch` for this fragment: the preferred match at
the leftmost position that has one, as the whole match followed by the groups;
the empty slice when there is no match. -/
def findStringSubmatch (re : Re) : List Char → List (List Char)
  | [] =>
    match re.run [] with
    | x :: _ => x.1 :: x.2.2
    | [] => []
  | c :: cs =>
    match re.run (c :: cs) with
    | x :: _ => x.1 :: x.2.2
    | [] => findStringSubmatch re cs

/-- The text before the capture group of the pattern. -/
def gckOpen : List Char := "var g_ck = '".data

/-- The class `[a-zA-Z0-9]`. -/
def alnumRanges : List (Char × Char) := [('a', 'z'), ('A', 'Z'), ('0', '9')]

/-- The pattern of line 150: the literal text, a group of one or more letters
or digits, and a closing quote. -/
def gckPattern : Re :=
  .cat (.str gckOpen) (.cat (.group (.plusClass alnumRanges)) (.str ['\'']))

/-- The HTTP client of the bootstrap: for a URL and a proxy setting, the body
read and the cookies the jar holds for the final URL, or the error of
`client.Get` or `ioutil.ReadAll`; and the serialisation `Cookie.String`. -/
structure BootEnv where
  get : String → String → Except String (String × List Cookie)
  cookieString : Cookie → String

/-- The function `getGCKAndCookies` (lines 127-169): the token and the
cookies, or an error, together with the lines printed. -/
def getGCKAndCookies (benv : BootEnv) (urlString proxy : String) :
    Except String (String × List Cookie) × List String :=
  match benv.get urlString proxy with
  | .error e => (.error e, [])
  | .ok (body, cookies) =>
    let found := findStringSubmatch gckPattern body.data
    if found.length ≠ 2 then (.error "g_ck not found", [])
    else
      let gCkValue := String.mk (found.getD 1 [])
      let cookieHeader := String.intercalate "; " (cookies.map benv.cookieString)
      (.ok (gCkValue, cookies),
        ["X-UserToken: " ++ gCkValue ++ "\n", "Cookie: " ++ cookieHeader ++ "\n\n\n"])

/-- The spec's description of a token occurrence: the body is `pre`, the text
`var g_ck = '`, a non-empty run `tok` of ASCII letters or digits, a quote, and
`post`. -/
def TokenAt (body pre tok post : List Char) : Prop :=
  body = pre ++ (gckOpen ++ (tok ++ '\'' :: post)) ∧ tok ≠ [] ∧
    ∀ c ∈ tok, c.isAlphanum = true

/-! ## Dispatch (`main`, lines 191-265) -/

/-- The function `readTableNamesFromFile` (lines 171-189) on the outcome of
opening and scanning the file: every line gets the prefix `t=`. -/
def readTableNamesFromFile (scan : Except String (List String)) :
    Except String (List String) :=
  match scan with
  | .error e => .error e
  | .ok lines => .ok (lines.foldl (fun acc line => acc ++ ["t=" ++ line]) [])

/-- What the dispatch loop has done so far: the goroutines started, the
WaitGroup counter and the lines printed. -/
structure Dispatch where
  spawned : List ProbeJob
  wg : Nat
  printed : List String
deriving DecidableEq, Repr

/-- Lines 243-264: one goroutine per table for a bootstrapped host. -/
def dispatchTables (url gCk : String) (cookies : List Cookie) (tableList : List String)
    (d : Dispatch) : Dispatch :=
  tableList.foldl (fun d table =>
    { d with
      wg := d.wg + 1
      spawned := d.spawned ++ [{ url := url, table := table, gCk := gCk, cookies := cookies }] })
    d

/-- Lines 236-265: the loop over the hosts; a host whose bootstrap fails is
skipped by `continue`. -/
def dispatch (benv : BootEnv) (proxy : String) (urls tableList : List String) : Dispatch :=
  urls.foldl (fun d url =>
    match getGCKAndCookies benv url proxy with
    | (.error e, out) =>
      { d with printed := d.printed ++ out ++
          ["Error fetching g_ck for " ++ url ++ ": " ++ e ++ "\n"] }
    | (.ok (gCk, cookies), out) =>
      dispatchTables url gCk cookies tableList { d with printed := d.printed ++ out })
    { spawned := [], wg := 0, printed := [] }

/-- Whether the bootstrap of a host succeeds. -/
def bootstraps (benv : BootEnv) (proxy url : String) : Bool :=
  match (getGCKAndCookies benv url proxy).1 with
  | .ok _ => true
  | .error _ => false

/-- The jobs of one host in the spec's words: one per table candidate when the
bootstrap succeeds, none otherwise. -/
def jobsOfHost (benv : BootEnv) (proxy : String) (tableList : List String) (url : String) :
    List ProbeJob :=
  match (getGCKAndCookies benv url proxy).1 with
  | .ok (gCk, cookies) =>
    tableList.map fun table => { url := url, table := table, gCk := gCk, cookies := cookies }
  | .error _ => []

/-! ## The admission gate (lines 229-230 and 245-263) -/

/-- The capacity of the channel `semaphore` (line 229). -/
def concurrencyLimit : Nat := 10

/-- A state of the run: jobs the loop has not started yet, goroutines waiting
at `semaphore <-`, goroutines holding a token (in flight), goroutines that
returned, the number of tokens in the channel `semaphore`, and the shared
state of the job bodies. -/
structure Gate (σ : Type) where
  todo : List ProbeJob
  waiting : List ProbeJob
  inFlight : List ProbeJob
  finished : List ProbeJob
  semaphore : Nat
  scan : ScanState σ

/-- The state before the dispatch loop starts. -/
def Gate.init {σ : Type} (jobs : List ProbeJob) (w : World σ) : Gate σ :=
  { todo := jobs, waiting := [], inFlight := [], finished := [], semaphore := 0,
    scan := initScan w }

/-- Steps of the run: the loop starts the next goroutine (line 245); a waiting
goroutine puts a token into the channel, possible only while the channel holds
fewer than `concurrencyLimit` tokens (line 246); a goroutine in flight runs its
probe, reports, and takes a token out (lines 248-262). -/
inductive Gate.Step {σ : Type} (env : Env σ) (fastCheck : Bool) : Gate σ → Gate σ → Prop where
  | spawn (g : Gate σ) (job : ProbeJob) (rest : List ProbeJob) :
      g.todo = job :: rest →
      Gate.Step env fastCheck g { g with todo := rest, waiting := g.waiting ++ [job] }
  | acquire (g : Gate σ) (before after : List ProbeJob) (job : ProbeJob) :
      g.waiting = before ++ job :: after →
      g.semaphore < concurrencyLimit →
      Gate.Step env fastCheck g
        { g with waiting := before ++ after, inFlight := job :: g.inFlight,
                 semaphore := g.semaphore + 1 }
  | release (g : Gate σ) (before after : List ProbeJob) (job : ProbeJob) :
      g.inFlight = before ++ job :: after →
      Gate.Step env fastCheck g
        { g with inFlight := before ++ after, finished := g.finished ++ [job],
                 semaphore := g.semaphore - 1, scan := jobBody env fastCheck job g.scan }

/-- States reachable from the initial state of a job list. -/
inductive Gate.Reachable {σ : Type} (env : Env σ) (fastCheck : Bool)
    (jobs : List ProbeJob) (w : World σ) : Gate σ → Prop where
  | init : Gate.Reachable env fastCheck jobs w (Gate.init jobs w)
  | step (g g' : Gate σ) :
      Gate.Reachable env fastCheck jobs w g → Gate.Step env fastCheck g g' →
      Gate.Reachable env fastCheck jobs w g'

/-- The run is over: every job has been started and has returned. -/
def Gate.terminal {σ : Type} (g : Gate σ) : Prop :=
  g.todo = [] ∧ g.waiting = [] ∧ g.inFlight = []

/-- Work left, counted in steps: three for a job not started, two for a
waiting one, one for a job in flight. -/
def Gate.workLeft {σ : Type} (g : Gate σ) : Nat :=
  3 * g.todo.length + 2 * g.waiting.length + g.inFlight.length

/-! ## Reading a response the way the spec describes it -/

/-- The body as a JSON object, if it is one. -/
def bodyObject (resp : Response) : Option (List (String × JVal)) :=
  match resp.body with
  | some (.obj kvs) => some kvs
  | _ => none

/-- Every number of the body is within the float64 range. -/
def bodyFits (resp : Response) : Bool :=
  match resp.body with
  | some v => v.fits
  | none => true

/-- The member `result` of the body, if present and an object. -/
def resultObject (resp : Response) : Option (List (String × JVal)) :=
  (bodyObject resp).bind fun m => asObject (m.lookup "result")

/-- The member `result.data`, if present and an object. -/
def dataObject (resp : Response) : Option (List (String × JVal)) :=
  (resultObject resp).bind fun m => asObject (m.lookup "data")

/-- The member `result.data.list`, if present and an array. -/
def listArray (resp : Response) : Option (List JVal) :=
  (dataObject resp).bind fun m => asArray (m.lookup "list")

/-- Status 200 or 201. -/
def statusOK (resp : Response) : Prop := resp.statusCode = 200 ∨ resp.statusCode = 201

instance (resp : Response) : Decidable (statusOK resp) := by
  unfold statusOK; infer_instance

/-- File-system events of a trace. -/
def fsEvents (t : List Event) : List Event :=
  t.filter fun e =>
    match e with
    | .mkdirAll _ => true
    | .create _ => true
    | .write _ _ => true
    | .close _ => true
    | _ => false

/-- Requests handed to the HTTP client in a trace. -/
def sentRequests (t : List Event) : List Request :=
  t.filterMap fun e =>
    match e with
    | .send r => some r
    | _ => none

/-- Paths of the files created in a trace. -/
def createdFiles (t : List Event) : List String :=
  t.filterMap fun e =>
    match e with
    | .create p => some p
    | _ => none

/-- Files written in a trace, with the data written. -/
def writtenFiles (t : List Event) : List (String × String) :=
  t.filterMap fun e =>
    match e with
    | .write p d => some (p, d)
    | _ => none

/-- Directory creation, file creation or the write fails for the given list. -/
def persistFails {σ : Type} (env : Env σ) (subdomain table : String) (list : List JVal)
    (fs : σ) : Prop :=
  (env.mkdirAll fs (dirPathOf subdomain)).1 ≠ none ∨
  (env.create (env.mkdirAll fs (dirPathOf subdomain)).2 (fileNameOf subdomain table)).1 ≠ none ∨
  (env.write (env.create (env.mkdirAll fs (dirPathOf subdomain)).2
      (fileNameOf subdomain table)).2 (fileNameOf subdomain table) (env.marshal list)).1 ≠ none

/-- The probe gets as far as the branch of lines 86-118: the request is sent,
answered with 200 or 201, the body decodes and `result.data.list` is a
non-empty array. -/
def reachesPersist {σ : Type} (env : Env σ) (baseURL gCkValue : String)
    (cookies : List Cookie) (fastCheck : Bool) (table : String) : Prop :=
  (fastCheck = false ∨ table = "t=kb_knowledge") ∧
  ∃ u0 u resp list,
    env.urlParse (probeURL baseURL table) = .ok u0 ∧
    env.urlParse baseURL = .ok u ∧
    env.roundTrip (probeRequest baseURL gCkValue cookies table) = .ok resp ∧
    statusOK resp ∧ bodyFits resp = true ∧ listArray resp = some list ∧ list ≠ []

/-- The flag is 1 exactly when some result sent so far is vulnerable. -/
def FlagOK {σ : Type} (s : ScanState σ) : Prop :=
  s.anyVulnerable = if s.results.any (fun c => c.Vulnerable) = true then 1 else 0

/-- What holds in every reachable state of the run: the channel holds one
token per job in flight and at most `concurrencyLimit`; one result has been
sent per job that returned; no job is lost; the flag is the OR of the results
sent. -/
def Gate.Inv {σ : Type} (jobs : List ProbeJob) (g : Gate σ) : Prop :=
  g.semaphore = g.inFlight.length ∧ g.semaphore ≤ concurrencyLimit ∧
  g.scan.results.length = g.finished.length ∧
  g.todo.length + g.waiting.length + g.inFlight.length + g.finished.length = jobs.length ∧
  g.scan.anyVulnerable = if g.scan.results.any (fun c => c.Vulnerable) = true then 1 else 0

/-! ## A concrete environment for examples -/

/-- An in-memory file tree: directories and files by full path, and the number
of entries that can still be created. -/
structure MemFS where
  dirs : List String
  files : List (String × String)
  freeEntries : Nat
deriving DecidableEq, Repr

/-- In-memory `os.MkdirAll`: nothing to do for an existing directory, an error
when the path is a file or no entry is free. -/
def MemFS.mkdirAll (fs : MemFS) (path : String) : Option String × MemFS :=
  if path ∈ fs.dirs then (none, fs)
  else if (fs.files.lookup path).isSome then (some "not a directory", fs)
  else if fs.freeEntries = 0 then (some "no space left on device", fs)
  else (none, { fs with dirs := path :: fs.dirs, freeEntries := fs.freeEntries - 1 })

/-- In-memory `os.Create`: truncates an existing file, creates a missing one
when an entry is free. -/
def MemFS.create (fs : MemFS) (path : String) : Option String × MemFS :=
  if path ∈ fs.dirs then (some "is a directory", fs)
  else if (fs.files.lookup path).isSome then
    (none, { fs with files := (path, "") :: fs.files.filter fun f => f.1 ≠ path })
  else if fs.freeEntries = 0 then (some "no space left on device", fs)
  else (none, { fs with files := (path, "") :: fs.files, freeEntries := fs.freeEntries - 1 })

/-- In-memory `File.Write` on a freshly created file. -/
def MemFS.write (fs : MemFS) (path data : String) : Option String × MemFS :=
  if (fs.files.lookup path).isSome then
    (none, { fs with files := (path, data) :: fs.files.filter fun f => f.1 ≠ path })
  else (some "bad file descriptor", fs)

/-- The host part of `scheme://[user@]host[:port][/...]`: what
`url.Parse(...).Hostname()` gives on URLs of this plain shape; the empty
hostname when there is no `//`. -/
def plainHostname (url : List Char) : List Char :=
  match (url.dropWhile fun c => c ≠ ':') with
  | ':' :: '/' :: '/' :: rest =>
    let authority := rest.takeWhile fun c => c ≠ '/' ∧ c ≠ '?' ∧ c ≠ '#'
    let hostPort := (authority.reverse.takeWhile fun c => c ≠ '@').reverse
    hostPort.takeWhile fun c => c ≠ ':'
  | _ => []

/-- A URL parser that accepts everything and reads the hostname as `plainHostname`. -/
def plainParse (url : String) : Except String ParsedURL :=
  .ok { hostname := String.mk (plainHostname url.data) }

/-- A stand-in for `json.Marshal` that renders only the shape of the array. -/
def shapeMarshal (list : List JVal) : String :=
  "[" ++ String.intercalate "," (list.map fun _ => "\x7b\x7d") ++ "]"

/-- An environment over the in-memory file tree whose server gives every
request the same answer. -/
def memEnv (answer : Except String Response) : Env MemFS :=
  { urlParse := plainParse
    roundTrip := fun _ => answer
    marshal := shapeMarshal
    mkdirAll := MemFS.mkdirAll
    create := MemFS.create
    write := MemFS.write }

/-- A 200 response whose body is the object with the given `result.data.list`. -/
def leakResponse (list : JVal) : Response :=
  { statusCode := 200
    body := some (.obj [("result", .obj [("data", .obj [("list", list)])])]) }

/-- A 200 response whose `result.data.list` is the empty array and whose
member `n` is the number `1e999`. -/
def overflowResponse : Response :=
  { statusCode := 200
    body := some (.obj [("result", .obj [("data", .obj [("list", .arr [])])]),
      ("n", .num 1 999)]) }

/-- A 200 response whose `result.data` object has no member `list`. -/
def noListResponse : Response :=
  { statusCode := 200
    body := some (.obj [("result", .obj [("data", .obj [])])]) }

/-- A response with the given status and a body that is not JSON. -/
def statusResponse (code : Int) : Response :=
  { statusCode := code
    body := none }

/-- A bootstrap client whose pages carry the token `T1` for the host
`https://a.example` and are unreachable for every other host. -/
def demoBoot : BootEnv :=
  { get := fun url _ =>
      if url = "https://a.example" then .ok ("<script>var g_ck = 'T1';</script>", [])
      else .error "no such host"
    cookieString := fun c => c.name ++ "=" ++ c.value }

/-- A job for a host and a table with the token `T1` and no cookies. -/
def jobAt (url table : String) : ProbeJob :=
  { url := url, table := table, gCk := "T1", cookies := [] }

/-- A job for the host `https://a.example`. -/
def demoJob (table : String) : ProbeJob :=
  { url := "https://a.example", table := table, gCk := "T1", cookies := [] }

/-- An empty file tree with the given number of free entries and an empty trace. -/
def emptyWorld (free : Nat) : World MemFS :=
  { fs := { dirs := [], files := [], freeEntries := free }, trace := [] }

/-! ## Classification lemmas -/

theorem bodyFits_obj (sc : Int) (kvs : List (String × JVal)) :
    bodyFits { statusCode := sc, body := some (.obj kvs) } = fitsEntries kvs := by
  simp [bodyFits, JVal.fits]

theorem classify_of_list {σ : Type} (env : Env σ) (reqURL subdomain table : String)
    (acc : List String) (resp : Response) (w : World σ) (list : List JVal)
    (hs : statusOK resp) (hf : bodyFits resp = true) (hl : listArray resp = some list) :
    classify env reqURL subdomain table acc resp w =
      if list.length = 0 then
        (.ok acc, w.log (.print (reqURL ++
          " is EXPOSED, but data is NOT leaking likely because ACLs are blocking. Mark Widgets as not Public.\n")))
      else persistLeak env reqURL subdomain table list acc w := by
  unfold statusOK at hs
  obtain ⟨sc, body⟩ := resp
  simp only [listArray, dataObject, resultObject, bodyObject] at hl
  simp only at hs
  unfold classify
  simp only [hs, if_true]
  match body, hl, hf with
  | some (.obj kvs), hl, hf =>
    rw [bodyFits_obj] at hf
    simp only [decodeMap, hf, if_true, mapIndex]
    simp only [Option.bind_eq_some, Option.some_bind] at hl
    obtain ⟨d, ⟨r, hr, hd⟩, hlist⟩ := hl
    simp only [hr, hd, hlist]

theorem classify_bad_status {σ : Type} (env : Env σ) (reqURL subdomain table : String)
    (acc : List String) (resp : Response) (w : World σ) (hs : ¬ statusOK resp) :
    classify env reqURL subdomain table acc resp w =
      (.error ("received status code " ++ toString resp.statusCode ++ " for " ++ reqURL), w) := by
  unfold statusOK at hs
  unfold classify
  simp only [hs, if_false]

theorem classify_no_list {σ : Type} (env : Env σ) (reqURL subdomain table : String)
    (acc : List String) (resp : Response) (w : World σ) (d : List (String × JVal))
    (hs : statusOK resp) (hf : bodyFits resp = true) (hd : dataObject resp = some d)
    (hl : listArray resp = none) :
    classify env reqURL subdomain table acc resp w = (.ok acc, w) := by
  unfold statusOK at hs
  obtain ⟨sc, body⟩ := resp
  simp only [listArray, hd, Option.some_bind] at hl
  simp only [dataObject, resultObject, bodyObject] at hd
  simp only at hs
  unfold classify
  simp only [hs, if_true]
  match body, hd, hf with
  | some (.obj kvs), hd, hf =>
    rw [bodyFits_obj] at hf
    simp only [decodeMap, hf, if_true, mapIndex]
    simp only [Option.bind_eq_some, Option.some_bind] at hd
    obtain ⟨r, hr, hd⟩ := hd
    simp only [hr, hd, hl]

/-- A body that holds a number outside the float64 range is an error. -/
theorem classify_unfit {σ : Type} (env : Env σ) (reqURL subdomain table : String)
    (acc : List String) (resp : Response) (w : World σ)
    (hs : statusOK resp) (hf : bodyFits resp = false) :
    ∃ e, classify env reqURL subdomain table acc resp w = (.error e, w) := by
  unfold statusOK at hs
  obtain ⟨sc, body⟩ := resp
  simp only at hs
  unfold classify
  simp only [hs, if_true]
  match body, hf with
  | none, _ => exact ⟨_, rfl⟩
  | some .null, _ => exact ⟨_, rfl⟩
  | some (.bool _), _ => exact ⟨_, rfl⟩
  | some (.num _ _), _ => exact ⟨_, rfl⟩
  | some (.str _), _ => exact ⟨_, rfl⟩
  | some (.arr _), _ => exact ⟨_, rfl⟩
  | some (.obj kvs), hf =>
    rw [bodyFits_obj] at hf
    simp only [decodeMap, hf]
    exact ⟨_, rfl⟩

theorem classify_no_data {σ : Type} (env : Env σ) (reqURL subdomain table : String)
    (acc : List String) (resp : Response) (w : World σ)
    (hs : statusOK resp) (hd : dataObject resp = none) :
    ∃ e, classify env reqURL subdomain table acc resp w = (.error e, w) := by
  cases hf : bodyFits resp with
  | false => exact classify_unfit env reqURL subdomain table acc resp w hs hf
  | true =>
    unfold statusOK at hs
    obtain ⟨sc, body⟩ := resp
    simp only [dataObject, resultObject, bodyObject] at hd
    simp only at hs
    unfold classify
    simp only [hs, if_true]
    match body, hd, hf with
    | none, _, _ => exact ⟨_, rfl⟩
    | some .null, _, _ => exact ⟨_, rfl⟩
    | some (.bool _), _, _ => exact ⟨_, rfl⟩
    | some (.num _ _), _, _ => exact ⟨_, rfl⟩
    | some (.str _), _, _ => exact ⟨_, rfl⟩
    | some (.arr _), _, _ => exact ⟨_, rfl⟩
    | some (.obj kvs), hd, hf =>
      rw [bodyFits_obj] at hf
      simp only [decodeMap, hf, if_true, mapIndex]
      simp only [Option.some_bind] at hd
      cases hr : asObject (List.lookup "result" kvs) with
      | none => exact ⟨_, rfl⟩
      | some r =>
        simp only [hr, Option.some_bind] at hd
        simp only [hd]
        exact ⟨_, rfl⟩

/-- The persistence branch returns an error exactly when one of its three
file-system calls fails; otherwise it returns the accumulated URLs plus the
probed one. -/
theorem persistLeak_error_iff {σ : Type} (env : Env σ) (reqURL subdomain table : String)
    (list : List JVal) (acc : List String) (w : World σ) :
    (∃ e, (persistLeak env reqURL subdomain table list acc w).1 = .error e) ↔
      persistFails env subdomain table list w.fs := by
  unfold persistLeak persistFails
  simp only [World.log, World.setFs]
  rcases h1 : env.mkdirAll w.fs (dirPathOf subdomain) with ⟨e1, fs1⟩
  cases e1 with
  | some e => simp
  | none =>
    dsimp only
    rcases h2 : env.create fs1 (fileNameOf subdomain table) with ⟨e2, fs2⟩
    cases e2 with
    | some e => simp
    | none =>
      dsimp only
      rcases h3 : env.write fs2 (fileNameOf subdomain table) (env.marshal list) with ⟨e3, fs3⟩
      cases e3 with
      | some e => simp
      | none => simp

theorem persistLeak_ne_empty {σ : Type} (env : Env σ) (reqURL subdomain table : String)
    (list : List JVal) (acc : List String) (w : World σ) :
    (persistLeak env reqURL subdomain table list acc w).1 ≠ .ok [] := by
  unfold persistLeak
  simp only [World.log, World.setFs]
  rcases h1 : env.mkdirAll w.fs (dirPathOf subdomain) with ⟨e1, fs1⟩
  cases e1 with
  | some e => simp
  | none =>
    dsimp only
    rcases h2 : env.create fs1 (fileNameOf subdomain table) with ⟨e2, fs2⟩
    cases e2 with
    | some e => simp
    | none =>
      dsimp only
      rcases h3 : env.write fs2 (fileNameOf subdomain table) (env.marshal list) with ⟨e3, fs3⟩
      cases e3 with
      | some e => simp
      | none => simp

theorem fsEvents_append (t u : List Event) : fsEvents (t ++ u) = fsEvents t ++ fsEvents u := by
  simp [fsEvents]

/-- Outside the non-empty-list branch, classification performs no file-system call. -/
theorem classify_frame {σ : Type} (env : Env σ) (reqURL subdomain table : String)
    (acc : List String) (resp : Response) (w : World σ)
    (h : ¬ (statusOK resp ∧ bodyFits resp = true ∧
      ∃ list, listArray resp = some list ∧ list ≠ [])) :
    (classify env reqURL subdomain table acc resp w).2.fs = w.fs ∧
    fsEvents (classify env reqURL subdomain table acc resp w).2.trace = fsEvents w.trace := by
  by_cases hs : statusOK resp
  · cases hf : bodyFits resp with
    | false =>
      obtain ⟨e, he⟩ := classify_unfit env reqURL subdomain table acc resp w hs hf
      simp [he]
    | true =>
      cases hd : dataObject resp with
      | none =>
        obtain ⟨e, he⟩ := classify_no_data env reqURL subdomain table acc resp w hs hd
        simp [he]
      | some d =>
        cases hl : listArray resp with
        | none => simp [classify_no_list env reqURL subdomain table acc resp w d hs hf hd hl]
        | some list =>
          have hnil : list = [] := by
            by_contra hne
            exact h ⟨hs, hf, list, hl, hne⟩
          subst hnil
          rw [classify_of_list env reqURL subdomain table acc resp w [] hs hf hl]
          simp [World.log, fsEvents_append, fsEvents]
  · simp [classify_bad_status env reqURL subdomain table acc resp w hs]

/-- A probe whose request is built, sent and answered continues with the
classification of the answer. -/
theorem checkVulnerability_answered {σ : Type} (env : Env σ) (baseURL gCkValue : String)
    (cookies : List Cookie) (fastCheck : Bool) (table : String) (w : World σ)
    (u0 u : ParsedURL) (resp : Response)
    (hsend : fastCheck = false ∨ table = "t=kb_knowledge")
    (hreq : env.urlParse (probeURL baseURL table) = .ok u0)
    (hurl : env.urlParse baseURL = .ok u)
    (hresp : env.roundTrip (probeRequest baseURL gCkValue cookies table) = .ok resp) :
    checkVulnerability env baseURL gCkValue cookies fastCheck table w =
      classify env (probeURL baseURL table) (firstLabel u.hostname) table [] resp
        ((w.log (.newRequest "POST" (probeURL baseURL table) "\x7b\x7d")).log
          (.send (probeRequest baseURL gCkValue cookies table))) := by
  have hguard : (fastCheck && table != "t=kb_knowledge") = false := by
    rcases hsend with h | h <;> simp [h]
  unfold checkVulnerability
  simp only [hguard, hreq, hurl, hresp]
  rfl

/-- With fast-check on, a table other than `t=kb_knowledge` returns at line 30. -/
theorem checkVulnerability_skipped {σ : Type} (env : Env σ) (baseURL gCkValue : String)
    (cookies : List Cookie) (table : String) (w : World σ)
    (h : table ≠ "t=kb_knowledge") :
    checkVulnerability env baseURL gCkValue cookies true table w = (.ok [], w) := by
  unfold checkVulnerability
  simp [h]

/-! ## Persistence paths -/

theorem splitChar_plain (sep : Char) (c : List Char) (h : sep ∉ c) :
    splitChar sep c = [c] := by
  induction c with
  | nil => rfl
  | cons a as ih =>
    have ha : a ≠ sep := fun h0 => h (h0 ▸ List.mem_cons_self _ _)
    have has : sep ∉ as := fun h0 => h (List.mem_cons_of_mem _ h0)
    simp [splitChar, ha, ih has]

theorem splitChar_append (sep : Char) (c rest : List Char) (h : sep ∉ c) :
    splitChar sep (c ++ sep :: rest) = c :: splitChar sep rest := by
  induction c with
  | nil => simp [splitChar]
  | cons a as ih =>
    have ha : a ≠ sep := fun h0 => h (h0 ▸ List.mem_cons_self _ _)
    have has : sep ∉ as := fun h0 => h (List.mem_cons_of_mem _ h0)
    simp [splitChar, ha, ih has]

theorem splitChar_joinSlash (comps : List (List Char)) (hne : comps ≠ [])
    (h : ∀ c ∈ comps, '/' ∉ c) : splitChar '/' (joinSlash comps) = comps := by
  induction comps with
  | nil => exact absurd rfl hne
  | cons c rest ih =>
    cases rest with
    | nil => exact splitChar_plain '/' c (h c (List.mem_cons_self _ _))
    | cons d ds =>
      have hstep : joinSlash (c :: d :: ds) = c ++ '/' :: joinSlash (d :: ds) := rfl
      rw [hstep, splitChar_append '/' c _ (h c (List.mem_cons_self _ _)),
        ih (by simp) (fun x hx => h x (List.mem_cons_of_mem _ hx))]

theorem cleanStep_plain (rooted : Bool) (stack : List (List Char)) (c : List Char)
    (h : PlainComp c) : cleanStep rooted stack c = c :: stack := by
  obtain ⟨h1, _, h3, h4⟩ := h
  simp [cleanStep, h1, h3, h4]

theorem foldl_cleanStep_plain (rooted : Bool) (comps stack : List (List Char))
    (h : ∀ c ∈ comps, PlainComp c) :
    comps.foldl (cleanStep rooted) stack = comps.reverse ++ stack := by
  induction comps generalizing stack with
  | nil => rfl
  | cons c rest ih =>
    simp only [List.foldl_cons, List.reverse_cons, List.append_assoc, List.singleton_append]
    rw [cleanStep_plain rooted stack c (h c (List.mem_cons_self _ _)),
      ih _ (fun x hx => h x (List.mem_cons_of_mem _ hx))]

theorem joinSlash_head (c : List Char) (rest : List (List Char)) (h : PlainComp c) :
    ∃ a tail, joinSlash (c :: rest) = a :: tail ∧ a ≠ '/' := by
  obtain ⟨h1, h2, _, _⟩ := h
  cases c with
  | nil => exact absurd rfl h1
  | cons a as =>
    have ha : a ≠ '/' := fun h0 => h2 (h0 ▸ List.mem_cons_self _ _)
    cases rest with
    | nil => exact ⟨a, as, rfl, ha⟩
    | cons d ds => exact ⟨a, as ++ '/' :: joinSlash (d :: ds), rfl, ha⟩

/-- Cleaning a relative path made of plain components changes nothing. -/
theorem filepathClean_plain (comps : List (List Char)) (hne : comps ≠ [])
    (h : ∀ c ∈ comps, PlainComp c) : filepathClean (joinSlash comps) = joinSlash comps := by
  cases comps with
  | nil => exact absurd rfl hne
  | cons c rest =>
    obtain ⟨a, tail, hpath, ha⟩ := joinSlash_head c rest (h c (List.mem_cons_self _ _))
    have hsplit := splitChar_joinSlash (c :: rest) hne (fun x hx => (h x hx).2.1)
    unfold filepathClean
    dsimp only
    rw [hsplit, foldl_cleanStep_plain _ _ _ h]
    simp only [List.append_nil, List.reverse_reverse]
    rw [hpath]
    simp [ha]

theorem filepathJoinChars_plain (a b : List Char) (ha : a ≠ []) :
    filepathJoinChars [a, b] = filepathClean (a ++ '/' :: b) := by
  simp [filepathJoinChars, ha, joinSlash]

theorem plain_result : PlainComp "result".data := by
  refine ⟨by decide, by decide, by decide, by decide⟩

theorem plain_json (n : List Char) (h : '/' ∉ n) : PlainComp (n ++ ".json".data) := by
  refine ⟨by simp, ?_, ?_, ?_⟩
  · intro hmem
    rcases List.mem_append.mp hmem with h1 | h1
    · exact h h1
    · revert h1
      decide
  · intro h0
    have := congrArg List.length h0
    simp at this
  · intro h0
    have := congrArg List.length h0
    simp at this

theorem splitChar_head_no_sep (sep : Char) (s : List Char) :
    ∀ p ps, splitChar sep s = p :: ps → sep ∉ p := by
  induction s with
  | nil =>
    intro p ps h
    simp only [splitChar, List.cons.injEq] at h
    rw [← h.1]
    exact List.not_mem_nil _
  | cons a as ih =>
    intro p ps h
    unfold splitChar at h
    by_cases ha : a = sep
    · rw [if_pos ha] at h
      simp only [List.cons.injEq] at h
      rw [← h.1]
      exact List.not_mem_nil _
    · rw [if_neg ha] at h
      cases hrest : splitChar sep as with
      | nil =>
        rw [hrest] at h
        simp only [List.cons.injEq] at h
        rw [← h.1]
        simpa using Ne.symm ha
      | cons q qs =>
        rw [hrest] at h
        simp only [List.cons.injEq] at h
        rw [← h.1]
        intro hmem
        rcases List.mem_cons.mp hmem with h1 | h1
        · exact ha h1.symm
        · exact ih q qs hrest h1

theorem firstLabel_no_dot (hostname : String) : '.' ∉ (firstLabel hostname).data := by
  unfold firstLabel
  cases h : splitChar '.' hostname.data with
  | nil => simp
  | cons p ps => exact splitChar_head_no_sep '.' hostname.data p ps h

theorem plain_label (hostname : String) (hne : (firstLabel hostname).data ≠ [])
    (hs : '/' ∉ (firstLabel hostname).data) : PlainComp (firstLabel hostname).data := by
  have hdot := firstLabel_no_dot hostname
  refine ⟨hne, hs, ?_, ?_⟩
  · intro h0
    rw [h0] at hdot
    exact hdot (by decide)
  · intro h0
    rw [h0] at hdot
    exact hdot (by decide)

theorem trimPrefix_table (n : String) : stringsTrimPrefix ("t=" ++ n) "t=" = n := by
  unfold stringsTrimPrefix trimPrefixChars
  have hd : ("t=" ++ n).data = 't' :: '=' :: n.data := rfl
  have hp : ("t=" : String).data = ['t', '='] := rfl
  rw [hd, hp]
  simp

theorem filepathClean_result_slash : filepathClean ("result".data ++ ['/']) = "result".data := by
  decide

/-- The characters of the file a probe persists into, for a plain label and a
table whose name has no slash. -/
theorem fileNameOf_chars (label table : String) (hl : PlainComp label.data)
    (hn : '/' ∉ (stringsTrimPrefix table "t=").data) :
    (fileNameOf label table).data =
      joinSlash ["result".data, label.data,
        (stringsTrimPrefix table "t=").data ++ ".json".data] := by
  have hdir : (dirPathOf label).data = joinSlash ["result".data, label.data] := by
    unfold dirPathOf filepathJoin
    show filepathJoinChars ["result".data, label.data] = _
    rw [filepathJoinChars_plain _ _ (by decide)]
    exact filepathClean_plain ["result".data, label.data] (by simp)
      (by
        intro c hc
        simp only [List.mem_cons, List.mem_singleton, List.not_mem_nil, or_false] at hc
        rcases hc with h | h
        · rw [h]; exact plain_result
        · rw [h]; exact hl)
  unfold fileNameOf filepathJoin
  show filepathJoinChars [(dirPathOf label).data,
    (stringsTrimPrefix table "t=" ++ ".json").data] = _
  rw [hdir]
  have hjson : (stringsTrimPrefix table "t=" ++ ".json").data =
      (stringsTrimPrefix table "t=").data ++ ".json".data := rfl
  rw [hjson, filepathJoinChars_plain _ _ (by simp [joinSlash])]
  have hcat : joinSlash ["result".data, label.data] ++
        '/' :: ((stringsTrimPrefix table "t=").data ++ ".json".data) =
      joinSlash ["result".data, label.data,
        (stringsTrimPrefix table "t=").data ++ ".json".data] := by
    simp [joinSlash]
  rw [hcat]
  exact filepathClean_plain _ (by simp)
    (by
      intro c hc
      simp only [List.mem_cons, List.mem_singleton, List.not_mem_nil, or_false] at hc
      rcases hc with h | h | h
      · rw [h]; exact plain_result
      · rw [h]; exact hl
      · rw [h]; exact plain_json _ hn)

/-- The characters of the file a probe persists into when the label is empty:
the file lies directly in `result`. -/
theorem fileNameOf_chars_empty (label table : String) (hl : label.data = [])
    (hn : '/' ∉ (stringsTrimPrefix table "t=").data) :
    (fileNameOf label table).data =
      joinSlash ["result".data, (stringsTrimPrefix table "t=").data ++ ".json".data] := by
  have hdir : (dirPathOf label).data = "result".data := by
    unfold dirPathOf filepathJoin
    show filepathJoinChars ["result".data, label.data] = _
    rw [filepathJoinChars_plain _ _ (by decide), hl]
    exact filepathClean_result_slash
  unfold fileNameOf filepathJoin
  show filepathJoinChars [(dirPathOf label).data,
    (stringsTrimPrefix table "t=" ++ ".json").data] = _
  rw [hdir]
  have hjson : (stringsTrimPrefix table "t=" ++ ".json").data =
      (stringsTrimPrefix table "t=").data ++ ".json".data := rfl
  rw [hjson, filepathJoinChars_plain _ _ (by decide)]
  exact filepathClean_plain ["result".data, (stringsTrimPrefix table "t=").data ++ ".json".data]
    (by simp)
    (by
      intro c hc
      simp only [List.mem_cons, List.mem_singleton, List.not_mem_nil, or_false] at hc
      rcases hc with h | h
      · rw [h]; exact plain_result
      · rw [h]; exact plain_json _ hn)

/-- For a non-empty label without a slash and a table whose name has no slash,
the file is `result/<label>/<name>.json`. -/
theorem fileNameOf_literal (hostname table : String)
    (hne : (firstLabel hostname).data ≠ []) (hs : '/' ∉ (firstLabel hostname).data)
    (hn : '/' ∉ (stringsTrimPrefix table "t=").data) :
    fileNameOf (firstLabel hostname) table =
      "result/" ++ firstLabel hostname ++ "/" ++ stringsTrimPrefix table "t=" ++ ".json" := by
  apply String.ext
  rw [fileNameOf_chars _ _ (plain_label hostname hne hs) hn]
  simp only [String.data_append, joinSlash]
  simp

/-! ## Claims about `checkVulnerability` -/

/-- C1 fails as stated at two inputs.  A 200 body whose `result.data.list` is
the empty array but which also holds the number `1e999` makes `Decode` fail, so
the probe returns an error and not the empty result.  For the table
`t=../../../escaped` the file created is `../escaped.json`, outside `result`,
and not the text `result/a/../../../escaped.json`. -/
theorem C1_counterexample :
    (statusOK overflowResponse ∧ listArray overflowResponse = some [] ∧
      ∃ e, (checkVulnerability (memEnv (.ok overflowResponse)) "https://a.example" "T1" []
        false "t=kb_knowledge" (emptyWorld 4)).1 = .error e) ∧
    (createdFiles (checkVulnerability (memEnv (.ok (leakResponse (.arr [.str "r"]))))
        "https://a.example" "T1" [] false "t=../../../escaped" (emptyWorld 4)).2.trace =
        ["../escaped.json"] ∧
      "result/" ++ firstLabel "a.example" ++ "/" ++
        stringsTrimPrefix "t=../../../escaped" "t=" ++ ".json" ≠ "../escaped.json") := by
  refine ⟨⟨by decide, rfl, _, rfl⟩, by decide, by decide⟩

/-- C1 amended: when the request is sent and answered with status 200 or 201,
the body decodes (no number outside the float64 range) and `result.data.list`
is an array, an empty array gives an empty result, no error and no file-system
effect; a non-empty array whose persistence succeeds gives the one-element
result holding the probed URL, and exactly one file is created and written, at
`filepath.Join(filepath.Join("result", label), name + ".json")` with `label`
the text of the hostname before its first dot and `name` the table without its
`t=` prefix; that path is `result/<label>/<name>.json` when the label is not
empty and neither the label nor the name contains a slash. -/
theorem C1_classification {σ : Type} (env : Env σ) (baseURL gCkValue : String)
    (cookies : List Cookie) (fastCheck : Bool) (table : String) (w : World σ)
    (u0 u : ParsedURL) (resp : Response) (list : List JVal)
    (hsend : fastCheck = false ∨ table = "t=kb_knowledge")
    (hreq : env.urlParse (probeURL baseURL table) = .ok u0)
    (hurl : env.urlParse baseURL = .ok u)
    (hresp : env.roundTrip (probeRequest baseURL gCkValue cookies table) = .ok resp)
    (hstatus : statusOK resp)
    (hfit : bodyFits resp = true)
    (hlist : listArray resp = some list) :
    (list = [] →
      (checkVulnerability env baseURL gCkValue cookies fastCheck table w).1 = .ok [] ∧
      (checkVulnerability env baseURL gCkValue cookies fastCheck table w).2.fs = w.fs ∧
      fsEvents (checkVulnerability env baseURL gCkValue cookies fastCheck table w).2.trace =
        fsEvents w.trace) ∧
    (list ≠ [] → ∀ fs1 fs2 fs3 : σ,
      env.mkdirAll w.fs (filepathJoin "result" (firstLabel u.hostname)) = (none, fs1) →
      env.create fs1 (filepathJoin (filepathJoin "result" (firstLabel u.hostname))
        (stringsTrimPrefix table "t=" ++ ".json")) = (none, fs2) →
      env.write fs2 (filepathJoin (filepathJoin "result" (firstLabel u.hostname))
        (stringsTrimPrefix table "t=" ++ ".json")) (env.marshal list) = (none, fs3) →
      (checkVulnerability env baseURL gCkValue cookies fastCheck table w).1 =
        .ok [probeURL baseURL table] ∧
      (checkVulnerability env baseURL gCkValue cookies fastCheck table w).2.fs = fs3 ∧
      createdFiles (checkVulnerability env baseURL gCkValue cookies fastCheck table w).2.trace =
        createdFiles w.trace ++ [filepathJoin (filepathJoin "result" (firstLabel u.hostname))
          (stringsTrimPrefix table "t=" ++ ".json")] ∧
      writtenFiles (checkVulnerability env baseURL gCkValue cookies fastCheck table w).2.trace =
        writtenFiles w.trace ++ [(filepathJoin (filepathJoin "result" (firstLabel u.hostname))
          (stringsTrimPrefix table "t=" ++ ".json"), env.marshal list)]) ∧
    ((firstLabel u.hostname).data ≠ [] → '/' ∉ (firstLabel u.hostname).data →
      '/' ∉ (stringsTrimPrefix table "t=").data →
      filepathJoin (filepathJoin "result" (firstLabel u.hostname))
          (stringsTrimPrefix table "t=" ++ ".json") =
        "result/" ++ firstLabel u.hostname ++ "/" ++ stringsTrimPrefix table "t=" ++ ".json") := by
  rw [checkVulnerability_answered env baseURL gCkValue cookies fastCheck table w u0 u resp
    hsend hreq hurl hresp]
  rw [classify_of_list env _ _ table [] resp _ list hstatus hfit hlist]
  refine ⟨?_, ?_, ?_⟩
  · intro hnil
    subst hnil
    simp [World.log, fsEvents]
  · intro hne fs1 fs2 fs3 h1 h2 h3
    have hlen : ¬ list.length = 0 := by
      intro h0
      exact hne (List.length_eq_zero.mp h0)
    simp only [hlen, if_false]
    unfold persistLeak
    simp only [World.log, World.setFs, dirPathOf, fileNameOf, h1, h2, h3]
    simp [createdFiles, writtenFiles]
  · intro hne hs hn
    exact fileNameOf_literal u.hostname table hne hs hn

/-- C1 amended, at concrete inputs: an empty list writes nothing, a one-record
list is stored in `result/a/kb_knowledge.json`. -/
theorem C1_classification_witness :
    ((checkVulnerability (memEnv (.ok (leakResponse (.arr [])))) "https://a.example" "T1" []
        false "t=kb_knowledge" (emptyWorld 4)).1 = .ok [] ∧
      (checkVulnerability (memEnv (.ok (leakResponse (.arr [])))) "https://a.example" "T1" []
        false "t=kb_knowledge" (emptyWorld 4)).2.fs = (emptyWorld 4).fs) ∧
    ((checkVulnerability (memEnv (.ok (leakResponse (.arr [.str "r"])))) "https://a.example"
        "T1" [] false "t=kb_knowledge" (emptyWorld 4)).1 =
        .ok ["https://a.example/api/now/sp/widget/widget-simple-list?t=kb_knowledge"] ∧
      createdFiles (checkVulnerability (memEnv (.ok (leakResponse (.arr [.str "r"]))))
        "https://a.example" "T1" [] false "t=kb_knowledge" (emptyWorld 4)).2.trace =
        ["result/a/kb_knowledge.json"]) := by
  have hempty := (C1_classification (memEnv (.ok (leakResponse (.arr [])))) "https://a.example"
    "T1" [] false "t=kb_knowledge" (emptyWorld 4) _ _ (leakResponse (.arr [])) []
    (Or.inl rfl) rfl rfl rfl (Or.inl rfl) rfl rfl).1 rfl
  have hall := C1_classification (memEnv (.ok (leakResponse (.arr [.str "r"]))))
    "https://a.example" "T1" [] false "t=kb_knowledge" (emptyWorld 4) _ _
    (leakResponse (.arr [.str "r"])) [.str "r"]
    (Or.inl rfl) rfl rfl rfl (Or.inl rfl) rfl rfl
  have hleak := hall.2.1 (by simp) _ _ _ rfl rfl rfl
  have hpath := hall.2.2 (by decide) (by decide) (by decide)
  refine ⟨⟨hempty.1, hempty.2.1⟩, ?_, ?_⟩
  · rw [hleak.1]; decide
  · rw [hleak.2.2.1, hpath]; decide

/-- C2 fails as stated: the answer has status 200 and its body is the object
whose `result.data.list` is the one-element array holding `1e999`; none of the
claim's conditions holds (the file tree would accept the directory and the
file), yet `Decode` fails and the probe returns an error. -/
theorem C2_counterexample :
    statusOK (leakResponse (.arr [.num 1 999])) ∧
    (bodyObject (leakResponse (.arr [.num 1 999]))).isSome = true ∧
    (resultObject (leakResponse (.arr [.num 1 999]))).isSome = true ∧
    (dataObject (leakResponse (.arr [.num 1 999]))).isSome = true ∧
    listArray (leakResponse (.arr [.num 1 999])) = some [.num 1 999] ∧
    ¬ persistFails (memEnv (.ok (leakResponse (.arr [.num 1 999])))) (firstLabel "a.example")
      "t=incident" [.num 1 999] (emptyWorld 4).fs ∧
    ∃ e, (checkVulnerability (memEnv (.ok (leakResponse (.arr [.num 1 999]))))
      "https://a.example" "T1" [] false "t=incident" (emptyWorld 4)).1 = .error e := by
  refine ⟨by decide, rfl, rfl, rfl, rfl, ?_, _, rfl⟩
  unfold persistFails
  decide

/-- C2 amended: once the request is sent and answered, the probe returns an
error exactly when the status is neither 200 nor 201, or the body is not a
JSON object, or it holds a number outside the float64 range, or `result` is
not an object, or `result.data` is not an object, or `list` is a non-empty
array and creating the directory, creating the file or writing it fails; a
200/201 answer that decodes and whose `list` is missing or not an array gives
the empty result without error. -/
theorem C2_error_iff {σ : Type} (env : Env σ) (baseURL gCkValue : String)
    (cookies : List Cookie) (fastCheck : Bool) (table : String) (w : World σ)
    (u0 u : ParsedURL) (resp : Response)
    (hsend : fastCheck = false ∨ table = "t=kb_knowledge")
    (hreq : env.urlParse (probeURL baseURL table) = .ok u0)
    (hurl : env.urlParse baseURL = .ok u)
    (hresp : env.roundTrip (probeRequest baseURL gCkValue cookies table) = .ok resp) :
    ((∃ e, (checkVulnerability env baseURL gCkValue cookies fastCheck table w).1 = .error e) ↔
      (¬ statusOK resp ∨ bodyObject resp = none ∨ bodyFits resp = false ∨
        resultObject resp = none ∨ dataObject resp = none ∨
        ∃ list, listArray resp = some list ∧ list ≠ [] ∧
          persistFails env (firstLabel u.hostname) table list w.fs)) ∧
    (statusOK resp → bodyFits resp = true → (∃ d, dataObject resp = some d) →
      listArray resp = none →
      (checkVulnerability env baseURL gCkValue cookies fastCheck table w).1 = .ok []) := by
  rw [checkVulnerability_answered env baseURL gCkValue cookies fastCheck table w u0 u resp
    hsend hreq hurl hresp]
  constructor
  · by_cases hs : statusOK resp
    · cases hf : bodyFits resp with
      | false =>
        obtain ⟨e, he⟩ := classify_unfit env (probeURL baseURL table)
          (firstLabel u.hostname) table [] resp
          ((w.log (.newRequest "POST" (probeURL baseURL table) "\x7b\x7d")).log
            (.send (probeRequest baseURL gCkValue cookies table))) hs hf
        simp [he]
      | true =>
        cases hd : dataObject resp with
        | none =>
          obtain ⟨e, he⟩ := classify_no_data env (probeURL baseURL table)
            (firstLabel u.hostname) table [] resp
            ((w.log (.newRequest "POST" (probeURL baseURL table) "\x7b\x7d")).log
              (.send (probeRequest baseURL gCkValue cookies table))) hs hd
          simp [he]
        | some d =>
          have hr : resultObject resp ≠ none := by
            intro h0
            simp [dataObject, h0] at hd
          have hb : bodyObject resp ≠ none := by
            intro h0
            simp [resultObject, h0] at hr
          cases hl : listArray resp with
          | none =>
            rw [classify_no_list env _ _ table [] resp _ d hs hf hd hl]
            simp [hs, hr, hb]
          | some list =>
            rw [classify_of_list env _ _ table [] resp _ list hs hf hl]
            by_cases hlen : list.length = 0
            · have hnil : list = [] := List.length_eq_zero.mp hlen
              simp [hs, hr, hb, hnil]
            · have hne : list ≠ [] := fun h0 => hlen (by simp [h0])
              simp only [hlen, if_false, persistLeak_error_iff]
              simp [hs, hr, hb, hne, World.log]
    · rw [classify_bad_status env _ _ table [] resp _ hs]
      simp [hs]
  · rintro hs hf ⟨d, hd⟩ hl
    rw [classify_no_list env _ _ table [] resp _ d hs hf hd hl]

/-- C2 amended, at a concrete answer: a 200 response without `list` gives no
error. -/
theorem C2_error_iff_witness :
    (checkVulnerability (memEnv (.ok noListResponse))
      "https://a.example" "T1" [] false "t=incident" (emptyWorld 4)).1 = .ok [] :=
  (C2_error_iff (memEnv (.ok noListResponse))
    "https://a.example" "T1" [] false "t=incident" (emptyWorld 4) _ _ _
    (Or.inl rfl) rfl rfl rfl).2 (Or.inl rfl) rfl ⟨[], rfl⟩ rfl

/-- C3: with fast-check on and a table other than `t=kb_knowledge`, the probe
returns the empty result and no error and leaves the world as it was (no
request built or sent, no file-system call), and the job reports
`Vulnerable = false` without touching the flag. -/
theorem C3_fast_check_skip {σ : Type} (env : Env σ) (baseURL gCkValue : String)
    (cookies : List Cookie) (table : String) (w : World σ) (s : ScanState σ)
    (h : table ≠ "t=kb_knowledge") :
    checkVulnerability env baseURL gCkValue cookies true table w = (.ok [], w) ∧
    jobBody env true { url := baseURL, table := table, gCk := gCkValue, cookies := cookies } s =
      { world := s.world, anyVulnerable := s.anyVulnerable,
        results := s.results ++ [{ URL := baseURL, Vulnerable := false, Table := table }] } := by
  refine ⟨checkVulnerability_skipped env baseURL gCkValue cookies table w h, ?_⟩
  unfold jobBody
  simp only [checkVulnerability_skipped env baseURL gCkValue cookies table s.world h]
  simp [report]

/-- C3 at a concrete table. -/
theorem C3_fast_check_skip_witness :
    checkVulnerability (memEnv (.ok (leakResponse (.arr [.str "r"])))) "https://a.example" "T1"
      [] true "t=sys_user" (emptyWorld 4) = (.ok [], emptyWorld 4) :=
  (C3_fast_check_skip (memEnv (.ok (leakResponse (.arr [.str "r"])))) "https://a.example" "T1"
    [] "t=sys_user" (emptyWorld 4) { world := emptyWorld 4, anyVulnerable := 0, results := [] }
    (by decide)).1

/-- C6 fails as stated: the list is non-empty, the directory `result/a` is
created, then creating the file fails; the probe returns an error and the
directory stays. -/
theorem C6_counterexample :
    (checkVulnerability (memEnv (.ok (leakResponse (.arr [.str "r"])))) "https://a.example.com"
      "T1" [] false "t=incident" (emptyWorld 1)).1 = .error "no space left on device" ∧
    (checkVulnerability (memEnv (.ok (leakResponse (.arr [.str "r"])))) "https://a.example.com"
      "T1" [] false "t=incident" (emptyWorld 1)).2.fs ≠ (emptyWorld 1).fs := by
  decide

/-- C6 amended: a probe that returns the empty result, or that does not reach
the branch where `list` is a non-empty array, performs no file-system call and
leaves the file system as it was. -/
theorem C6_frame {σ : Type} (env : Env σ) (baseURL gCkValue : String)
    (cookies : List Cookie) (fastCheck : Bool) (table : String) (w : World σ)
    (h : (checkVulnerability env baseURL gCkValue cookies fastCheck table w).1 = .ok [] ∨
      ¬ reachesPersist env baseURL gCkValue cookies fastCheck table) :
    (checkVulnerability env baseURL gCkValue cookies fastCheck table w).2.fs = w.fs ∧
    fsEvents (checkVulnerability env baseURL gCkValue cookies fastCheck table w).2.trace =
      fsEvents w.trace := by
  by_cases hguard : (fastCheck && table != "t=kb_knowledge") = true
  · unfold checkVulnerability
    simp [hguard]
  · have hsend : fastCheck = false ∨ table = "t=kb_knowledge" := by
      cases fastCheck with
      | false => exact Or.inl rfl
      | true =>
        right
        by_contra hne
        exact hguard (by simp [hne])
    cases hreq : env.urlParse (probeURL baseURL table) with
    | error e =>
      unfold checkVulnerability
      simp [hguard, hreq, World.log, fsEvents]
    | ok u0 =>
      cases hurl : env.urlParse baseURL with
      | error e =>
        unfold checkVulnerability
        simp [hguard, hreq, hurl, World.log, fsEvents]
      | ok u =>
        cases hresp : env.roundTrip (probeRequest baseURL gCkValue cookies table) with
        | error e =>
          unfold checkVulnerability
          simp [hguard, hreq, hurl, hresp, World.log, fsEvents]
        | ok resp =>
          rw [checkVulnerability_answered env baseURL gCkValue cookies fastCheck table w u0 u
            resp hsend hreq hurl hresp] at h ⊢
          have hno : ¬ (statusOK resp ∧ bodyFits resp = true ∧
              ∃ list, listArray resp = some list ∧ list ≠ []) := by
            rintro ⟨hs, hf, list, hl, hne⟩
            rcases h with h | h
            · rw [classify_of_list env _ _ table [] resp _ list hs hf hl] at h
              have hlen : ¬ list.length = 0 := fun h0 => hne (List.length_eq_zero.mp h0)
              simp only [hlen, if_false] at h
              exact persistLeak_ne_empty env _ _ table list [] _ h
            · exact h ⟨hsend, u0, u, resp, list, hreq, hurl, hresp, hs, hf, hl, hne⟩
          have hframe := classify_frame env (probeURL baseURL table) (firstLabel u.hostname)
            table [] resp
            ((w.log (.newRequest "POST" (probeURL baseURL table) "\x7b\x7d")).log
              (.send (probeRequest baseURL gCkValue cookies table))) hno
          simpa [World.log, fsEvents] using hframe

/-- C6 amended, at a concrete probe answered with status 500. -/
theorem C6_frame_witness :
    (checkVulnerability (memEnv (.ok (statusResponse 500))) "https://a.example"
      "T1" [] false "t=incident" (emptyWorld 4)).2.fs = (emptyWorld 4).fs :=
  (C6_frame (memEnv (.ok (statusResponse 500))) "https://a.example"
    "T1" [] false "t=incident" (emptyWorld 4) (Or.inr (by
      rintro ⟨_, _, _, resp, list, _, _, hresp, hs, _, _, _⟩
      have hr : resp = statusResponse 500 := by
        simp only [memEnv] at hresp
        injection hresp with hresp
        exact hresp.symm
      subst hr
      revert hs
      decide))).1

/-- C10: with fast-check on, the table `t=incident` is not probed: for every
environment the call returns the empty result at once and sends no request;
the table that is probed is `t=kb_knowledge`, for which the request is sent. -/
theorem C10_incident_not_probed {σ : Type} (env : Env σ) (baseURL gCkValue : String)
    (cookies : List Cookie) (w : World σ) :
    checkVulnerability env baseURL gCkValue cookies true "t=incident" w = (.ok [], w) ∧
    sentRequests (checkVulnerability env baseURL gCkValue cookies true "t=incident" w).2.trace =
      sentRequests w.trace ∧
    sentRequests (checkVulnerability (memEnv (.ok noListResponse)) "https://a.example" "T1" []
      true "t=kb_knowledge" (emptyWorld 4)).2.trace =
      [probeRequest "https://a.example" "T1" [] "t=kb_knowledge"] := by
  have h := checkVulnerability_skipped env baseURL gCkValue cookies "t=incident" w (by decide)
  exact ⟨h, by rw [h], by decide⟩

/-! ## Aggregation, dispatch and the admission gate -/

theorem report_results {σ : Type} (job : ProbeJob) (r : Except String (List String))
    (s : ScanState σ) :
    (report job r s).results =
      s.results ++ [{ URL := job.url, Vulnerable := vulnerableOutcome r, Table := job.table }] := by
  cases r with
  | error e => simp [report, vulnerableOutcome]
  | ok l =>
    cases l with
    | nil => simp [report, vulnerableOutcome]
    | cons x xs => simp [report, vulnerableOutcome]

theorem report_flag {σ : Type} (job : ProbeJob) (r : Except String (List String))
    (s : ScanState σ) :
    (report job r s).anyVulnerable = if vulnerableOutcome r = true then 1 else s.anyVulnerable := by
  cases r with
  | error e => simp [report, vulnerableOutcome]
  | ok l =>
    cases l with
    | nil => simp [report, vulnerableOutcome]
    | cons x xs => simp [report, vulnerableOutcome]

theorem flagOK_init {σ : Type} (w : World σ) : FlagOK (initScan w) := by
  simp [FlagOK, initScan]

theorem flagOK_report {σ : Type} (job : ProbeJob) (r : Except String (List String))
    (s : ScanState σ) (h : FlagOK s) : FlagOK (report job r s) := by
  unfold FlagOK at h ⊢
  rw [report_flag, report_results, h]
  cases hv : vulnerableOutcome r <;> simp

theorem flagOK_world {σ : Type} (s : ScanState σ) (w : World σ) (h : FlagOK s) :
    FlagOK { s with world := w } := h

theorem flagOK_jobBody {σ : Type} (env : Env σ) (fastCheck : Bool) (job : ProbeJob)
    (s : ScanState σ) (h : FlagOK s) : FlagOK (jobBody env fastCheck job s) := by
  unfold jobBody
  exact flagOK_report job _ _ (flagOK_world s _ h)

theorem jobBody_results_length {σ : Type} (env : Env σ) (fastCheck : Bool) (job : ProbeJob)
    (s : ScanState σ) :
    (jobBody env fastCheck job s).results.length = s.results.length + 1 := by
  unfold jobBody
  simp [report_results]

theorem reportAll_results {σ : Type} (done : List (ProbeJob × Except String (List String)))
    (s : ScanState σ) :
    (reportAll done s).results = s.results ++ done.map outcomeOf := by
  induction done generalizing s with
  | nil => simp [reportAll]
  | cons jr rest ih =>
    have hstep : reportAll (jr :: rest) s = reportAll rest (report jr.1 jr.2 s) := rfl
    rw [hstep, ih, report_results]
    simp [outcomeOf]

theorem flagOK_reportAll {σ : Type} (done : List (ProbeJob × Except String (List String)))
    (s : ScanState σ) (h : FlagOK s) : FlagOK (reportAll done s) := by
  induction done generalizing s with
  | nil => exact h
  | cons jr rest ih => exact ih _ (flagOK_report jr.1 jr.2 s h)

theorem finalVerdict_one : finalVerdict 1 = "Scanning completed. Vulnerable URLs found." := by
  decide

theorem finalVerdict_zero : finalVerdict 0 ≠ "Scanning completed. Vulnerable URLs found." := by
  decide

theorem verdict_iff {σ : Type} (s : ScanState σ) (h : FlagOK s) :
    finalVerdict s.anyVulnerable = "Scanning completed. Vulnerable URLs found." ↔
      ∃ c ∈ s.results, c.Vulnerable = true := by
  unfold FlagOK at h
  rw [h]
  by_cases hany : s.results.any (fun c => c.Vulnerable) = true
  · simp only [hany, if_true, finalVerdict_one, true_iff]
    simpa only [List.any_eq_true] using hany
  · simp only [hany, if_false]
    simp only [List.any_eq_true] at hany
    constructor
    · intro h0
      exact absurd h0 finalVerdict_zero
    · intro h1
      exact absurd h1 hany

theorem gate_inv_init {σ : Type} (jobs : List ProbeJob) (w : World σ) :
    Gate.Inv jobs (Gate.init jobs w) := by
  simp [Gate.Inv, Gate.init, initScan]

theorem gate_inv_step {σ : Type} (env : Env σ) (fastCheck : Bool) (jobs : List ProbeJob)
    (g g2 : Gate σ) (hinv : Gate.Inv jobs g) (hstep : Gate.Step env fastCheck g g2) :
    Gate.Inv jobs g2 := by
  obtain ⟨htok, hcap, hres, hcount, hflag⟩ := hinv
  cases hstep with
  | spawn job rest htodo =>
    refine ⟨htok, hcap, hres, ?_, hflag⟩
    simp only [htodo, List.length_cons, List.length_append, List.length_nil] at hcount ⊢
    omega
  | acquire before after job hwait hlt =>
    refine ⟨?_, ?_, hres, ?_, hflag⟩
    · simp only [List.length_cons]
      omega
    · show g.semaphore + 1 ≤ concurrencyLimit
      omega
    · simp only [hwait, List.length_cons, List.length_append] at hcount ⊢
      omega
  | release before after job hfl =>
    refine ⟨?_, ?_, ?_, ?_, ?_⟩
    · show g.semaphore - 1 = (before ++ after).length
      simp only [hfl, List.length_cons, List.length_append] at htok ⊢
      omega
    · show g.semaphore - 1 ≤ concurrencyLimit
      omega
    · show (jobBody env fastCheck job g.scan).results.length = (g.finished ++ [job]).length
      rw [jobBody_results_length, hres]
      simp
    · simp only [hfl, List.length_cons, List.length_append, List.length_nil] at hcount ⊢
      omega
    · exact flagOK_jobBody env fastCheck job g.scan hflag

theorem gate_inv {σ : Type} (env : Env σ) (fastCheck : Bool) (jobs : List ProbeJob)
    (w : World σ) (g : Gate σ) (h : Gate.Reachable env fastCheck jobs w g) :
    Gate.Inv jobs g := by
  induction h with
  | init => exact gate_inv_init jobs w
  | step g g2 _ hstep ih => exact gate_inv_step env fastCheck jobs g g2 ih hstep

theorem gate_progress {σ : Type} (env : Env σ) (fastCheck : Bool) (jobs : List ProbeJob)
    (g : Gate σ) (hinv : Gate.Inv jobs g) (hnt : ¬ g.terminal) :
    ∃ g2, Gate.Step env fastCheck g g2 := by
  obtain ⟨htok, _, _, _, _⟩ := hinv
  cases htodo : g.todo with
  | cons job rest => exact ⟨_, Gate.Step.spawn g job rest htodo⟩
  | nil =>
    cases hfl : g.inFlight with
    | cons job rest => exact ⟨_, Gate.Step.release g [] rest job (by simpa using hfl)⟩
    | nil =>
      cases hwait : g.waiting with
      | nil => exact absurd ⟨htodo, hwait, hfl⟩ hnt
      | cons job rest =>
        refine ⟨_, Gate.Step.acquire g [] rest job (by simpa using hwait) ?_⟩
        rw [htok, hfl]
        decide

theorem gate_step_decreases {σ : Type} (env : Env σ) (fastCheck : Bool) (g g2 : Gate σ)
    (hstep : Gate.Step env fastCheck g g2) : g2.workLeft < g.workLeft := by
  cases hstep with
  | spawn job rest htodo =>
    simp only [Gate.workLeft, htodo, List.length_cons, List.length_append, List.length_nil]
    omega
  | acquire before after job hwait hlt =>
    simp only [Gate.workLeft, hwait, List.length_cons, List.length_append]
    omega
  | release before after job hfl =>
    simp only [Gate.workLeft, hfl, List.length_cons, List.length_append]
    omega

theorem gate_terminal_count {σ : Type} (jobs : List ProbeJob) (g : Gate σ)
    (hinv : Gate.Inv jobs g) (hterm : g.terminal) : g.scan.results.length = jobs.length := by
  obtain ⟨_, _, hres, hcount, _⟩ := hinv
  obtain ⟨h1, h2, h3⟩ := hterm
  simp only [h1, h2, h3, List.length_nil] at hcount
  omega

theorem gate_results_le {σ : Type} (jobs : List ProbeJob) (g : Gate σ)
    (hinv : Gate.Inv jobs g) : g.scan.results.length ≤ jobs.length := by
  obtain ⟨_, _, hres, hcount, _⟩ := hinv
  omega

/-- C8: in every state reachable through the steps of the admission gate, at
most 10 probes are in flight, one per token in the single channel shared by
all hosts and tables, whatever the jobs are. -/
theorem C8_concurrency_cap {σ : Type} (env : Env σ) (fastCheck : Bool)
    (jobs : List ProbeJob) (w : World σ) (g : Gate σ)
    (h : Gate.Reachable env fastCheck jobs w g) :
    g.inFlight.length ≤ 10 ∧ g.inFlight.length = g.semaphore ∧ g.semaphore ≤ concurrencyLimit := by
  obtain ⟨htok, hcap, _, _, _⟩ := gate_inv env fastCheck jobs w g h
  have h10 : concurrencyLimit = 10 := rfl
  refine ⟨?_, htok.symm, hcap⟩
  omega

/-- C8 at a concrete run: one job started and admitted. -/
theorem C8_concurrency_cap_witness :
    ∃ g : Gate MemFS,
      Gate.Reachable (memEnv (.ok noListResponse)) false [demoJob "t=incident"] (emptyWorld 4) g ∧
      g.inFlight.length = 1 ∧ g.inFlight.length ≤ 10 := by
  have h0 : Gate.Reachable (memEnv (.ok noListResponse)) false [demoJob "t=incident"]
      (emptyWorld 4) (Gate.init [demoJob "t=incident"] (emptyWorld 4)) := Gate.Reachable.init
  have h1 := Gate.Reachable.step _ _ h0
    (Gate.Step.spawn (Gate.init [demoJob "t=incident"] (emptyWorld 4))
      (demoJob "t=incident") [] rfl)
  have h2 := Gate.Reachable.step _ _ h1
    (Gate.Step.acquire _ [] [] (demoJob "t=incident") rfl (by decide))
  exact ⟨_, h2, rfl, (C8_concurrency_cap _ _ _ _ _ h2).1⟩

theorem jobBody_results {σ : Type} (env : Env σ) (fastCheck : Bool) (job : ProbeJob)
    (s : ScanState σ) :
    (jobBody env fastCheck job s).results = s.results ++ [outcomeOf (job,
      (checkVulnerability env job.url job.gCk job.cookies fastCheck job.table s.world).1)] := by
  unfold jobBody
  rw [report_results]
  rfl

theorem jobBody_flag {σ : Type} (env : Env σ) (fastCheck : Bool) (job : ProbeJob)
    (s : ScanState σ) :
    (jobBody env fastCheck job s).anyVulnerable =
      if (outcomeOf (job, (checkVulnerability env job.url job.gCk job.cookies fastCheck
        job.table s.world).1)).Vulnerable = true then 1 else s.anyVulnerable := by
  unfold jobBody
  rw [report_flag]
  rfl

theorem runJobs_results {σ : Type} (env : Env σ) (fastCheck : Bool) (jobs : List ProbeJob)
    (s : ScanState σ) :
    (runJobs env fastCheck jobs s).results =
      s.results ++ (probeReturns env fastCheck jobs s).map outcomeOf := by
  induction jobs generalizing s with
  | nil => simp [runJobs, probeReturns]
  | cons job rest ih =>
    have hstep : runJobs env fastCheck (job :: rest) s =
        runJobs env fastCheck rest (jobBody env fastCheck job s) := rfl
    rw [hstep, ih, jobBody_results]
    simp [probeReturns]

theorem probeReturns_jobs {σ : Type} (env : Env σ) (fastCheck : Bool) (jobs : List ProbeJob)
    (s : ScanState σ) : (probeReturns env fastCheck jobs s).map Prod.fst = jobs := by
  induction jobs generalizing s with
  | nil => rfl
  | cons job rest ih => simp [probeReturns, ih]

/-- The shared state of a reachable state is what the job bodies of the
finished jobs leave, run in the order in which they finished. -/
theorem gate_scan {σ : Type} (env : Env σ) (fastCheck : Bool) (jobs : List ProbeJob)
    (w : World σ) (g : Gate σ) (h : Gate.Reachable env fastCheck jobs w g) :
    g.scan = runJobs env fastCheck g.finished (initScan w) := by
  induction h with
  | init => rfl
  | step g g2 _ hstep ih =>
    cases hstep with
    | spawn job rest htodo => exact ih
    | acquire before after job hwait hlt => exact ih
    | release before after job hfl =>
      show jobBody env fastCheck job g.scan =
        runJobs env fastCheck (g.finished ++ [job]) (initScan w)
      rw [ih]
      simp [runJobs]

/-- No job is lost or duplicated on the way through the gate. -/
theorem gate_jobs {σ : Type} (env : Env σ) (fastCheck : Bool) (jobs : List ProbeJob)
    (w : World σ) (g : Gate σ) (h : Gate.Reachable env fastCheck jobs w g) :
    (g.finished ++ (g.inFlight ++ (g.waiting ++ g.todo))).Perm jobs := by
  induction h with
  | init => simp [Gate.init]
  | step g g2 _ hstep ih =>
    cases hstep with
    | spawn job rest htodo =>
      rw [htodo] at ih
      refine List.Perm.trans ?_ ih
      show (g.finished ++ (g.inFlight ++ ((g.waiting ++ [job]) ++ rest))).Perm _
      simp
    | acquire before after job hwait hlt =>
      rw [hwait] at ih
      refine List.Perm.trans ?_ ih
      show (g.finished ++ ((job :: g.inFlight) ++ ((before ++ after) ++ g.todo))).Perm _
      refine List.Perm.append_left _ ?_
      have h1 : (job :: g.inFlight ++ (before ++ after ++ g.todo)).Perm
          (g.inFlight ++ job :: (before ++ after ++ g.todo)) := List.perm_middle.symm
      refine h1.trans (List.Perm.append_left _ ?_)
      have h2 : (job :: (before ++ after ++ g.todo)).Perm
          (before ++ job :: (after ++ g.todo)) := by
        rw [List.append_assoc]
        exact List.perm_middle.symm
      simpa using h2
    | release before after job hfl =>
      rw [hfl] at ih
      refine List.Perm.trans ?_ ih
      show ((g.finished ++ [job]) ++ ((before ++ after) ++ (g.waiting ++ g.todo))).Perm _
      rw [List.append_assoc]
      refine List.Perm.append_left _ ?_
      have h1 : (job :: (before ++ (after ++ (g.waiting ++ g.todo)))).Perm
          (before ++ job :: (after ++ (g.waiting ++ g.todo))) := List.perm_middle.symm
      simpa using h1

/-- C4: a job body reports its job as vulnerable exactly when its probe
returned no error and a non-empty slice, and sets the flag in that case only.
Whatever the probes returned and in whatever order they returned, the final
line says that vulnerable URLs were found exactly when some outcome is
vulnerable, the flag is the OR of the outcomes, and the final line is the same
for every permutation of the order.  In every reachable state of a run the
results are the outcomes of the probes of the finished jobs, the final line
says found exactly when one of those probes returned a non-empty slice, and at
the end the finished jobs are the dispatched jobs. -/
theorem C4_verdict_is_or {σ : Type} (w : World σ)
    (done : List (ProbeJob × Except String (List String))) :
    (reportAll done (initScan w)).results = done.map outcomeOf ∧
    (finalVerdict (reportAll done (initScan w)).anyVulnerable =
        "Scanning completed. Vulnerable URLs found." ↔
      ∃ jr ∈ done, (outcomeOf jr).Vulnerable = true) ∧
    ((reportAll done (initScan w)).anyVulnerable =
      if done.any (fun jr => (outcomeOf jr).Vulnerable) = true then 1 else 0) ∧
    (∀ done2 : List (ProbeJob × Except String (List String)), done2.Perm done →
      finalVerdict (reportAll done2 (initScan w)).anyVulnerable =
        finalVerdict (reportAll done (initScan w)).anyVulnerable) ∧
    (∀ (env : Env σ) (fastCheck : Bool) (job : ProbeJob) (s : ScanState σ),
      (jobBody env fastCheck job s).results = s.results ++ [outcomeOf (job,
        (checkVulnerability env job.url job.gCk job.cookies fastCheck job.table s.world).1)] ∧
      (jobBody env fastCheck job s).anyVulnerable =
        if (outcomeOf (job, (checkVulnerability env job.url job.gCk job.cookies fastCheck
          job.table s.world).1)).Vulnerable = true then 1 else s.anyVulnerable) ∧
    (∀ (env : Env σ) (fastCheck : Bool) (jobs : List ProbeJob) (g : Gate σ),
      Gate.Reachable env fastCheck jobs w g →
      (probeReturns env fastCheck g.finished (initScan w)).map Prod.fst = g.finished ∧
      g.scan.results = (probeReturns env fastCheck g.finished (initScan w)).map outcomeOf ∧
      (finalVerdict g.scan.anyVulnerable = "Scanning completed. Vulnerable URLs found." ↔
        ∃ jr ∈ probeReturns env fastCheck g.finished (initScan w),
          (outcomeOf jr).Vulnerable = true) ∧
      (g.terminal → g.finished.Perm jobs)) := by
  have hres : ∀ d : List (ProbeJob × Except String (List String)),
      (reportAll d (initScan w)).results = d.map outcomeOf := by
    intro d
    rw [reportAll_results]
    simp [initScan]
  have hflag : ∀ d : List (ProbeJob × Except String (List String)),
      (reportAll d (initScan w)).anyVulnerable =
        if d.any (fun jr => (outcomeOf jr).Vulnerable) = true then 1 else 0 := by
    intro d
    have h := flagOK_reportAll d (initScan w) (flagOK_init w)
    unfold FlagOK at h
    rw [h, hres d]
    have hany : ∀ l : List (ProbeJob × Except String (List String)),
        (l.map outcomeOf).any (fun c => c.Vulnerable) =
        l.any (fun jr => (outcomeOf jr).Vulnerable) := by
      intro l
      induction l with
      | nil => rfl
      | cons x xs ih => simp only [List.map_cons, List.any_cons, ih]
    rw [hany]
  refine ⟨hres done, ?_, hflag done, ?_, ?_, ?_⟩
  · rw [verdict_iff _ (flagOK_reportAll done (initScan w) (flagOK_init w)), hres done]
    constructor
    · rintro ⟨c, hc, hv⟩
      obtain ⟨jr, hjr, rfl⟩ := List.mem_map.mp hc
      exact ⟨jr, hjr, hv⟩
    · rintro ⟨jr, hjr, hv⟩
      exact ⟨_, List.mem_map.mpr ⟨jr, hjr, rfl⟩, hv⟩
  · intro done2 hperm
    rw [hflag done2, hflag done]
    have hany : done2.any (fun jr => (outcomeOf jr).Vulnerable) =
        done.any (fun jr => (outcomeOf jr).Vulnerable) := by
      rw [Bool.eq_iff_iff]
      simp only [List.any_eq_true]
      constructor
      · rintro ⟨x, hx, hv⟩
        exact ⟨x, hperm.mem_iff.mp hx, hv⟩
      · rintro ⟨x, hx, hv⟩
        exact ⟨x, hperm.mem_iff.mpr hx, hv⟩
    rw [hany]
  · intro env fastCheck job s
    exact ⟨jobBody_results env fastCheck job s, jobBody_flag env fastCheck job s⟩
  · intro env fastCheck jobs g hreach
    have hscan := gate_scan env fastCheck jobs w g hreach
    have hresults : g.scan.results =
        (probeReturns env fastCheck g.finished (initScan w)).map outcomeOf := by
      rw [hscan, runJobs_results]
      simp [initScan]
    refine ⟨probeReturns_jobs env fastCheck g.finished (initScan w), hresults, ?_, ?_⟩
    · rw [verdict_iff g.scan (gate_inv env fastCheck jobs w g hreach).2.2.2.2, hresults]
      constructor
      · rintro ⟨c, hc, hv⟩
        obtain ⟨jr, hjr, rfl⟩ := List.mem_map.mp hc
        exact ⟨jr, hjr, hv⟩
      · rintro ⟨jr, hjr, hv⟩
        exact ⟨_, List.mem_map.mpr ⟨jr, hjr, rfl⟩, hv⟩
    · rintro ⟨h1, h2, h3⟩
      have hperm := gate_jobs env fastCheck jobs w g hreach
      rw [h1, h2, h3] at hperm
      simpa using hperm

/-- C4 at concrete runs: two probe returns, one an error and one a finding,
give the same final line in both orders; and a run whose only job finds a leak
ends with the line that vulnerable URLs were found. -/
theorem C4_verdict_is_or_witness :
    finalVerdict (reportAll [(demoJob "t=incident", .ok ["u"]), (demoJob "t=x", .error "e")]
        (initScan (emptyWorld 4))).anyVulnerable =
      finalVerdict (reportAll [(demoJob "t=x", .error "e"), (demoJob "t=incident", .ok ["u"])]
        (initScan (emptyWorld 4))).anyVulnerable ∧
    ∃ g : Gate MemFS,
      Gate.Reachable (memEnv (.ok (leakResponse (.arr [.str "r"])))) false
        [demoJob "t=incident"] (emptyWorld 4) g ∧
      g.terminal ∧
      finalVerdict g.scan.anyVulnerable = "Scanning completed. Vulnerable URLs found." := by
  have hall := C4_verdict_is_or (emptyWorld 4)
    [(demoJob "t=x", .error "e"), (demoJob "t=incident", .ok ["u"])]
  refine ⟨hall.2.2.2.1 _ (List.Perm.swap _ _ _), ?_⟩
  have h0 : Gate.Reachable (memEnv (.ok (leakResponse (.arr [.str "r"])))) false
      [demoJob "t=incident"] (emptyWorld 4)
      (Gate.init [demoJob "t=incident"] (emptyWorld 4)) := Gate.Reachable.init
  have h1 := Gate.Reachable.step _ _ h0
    (Gate.Step.spawn (Gate.init [demoJob "t=incident"] (emptyWorld 4))
      (demoJob "t=incident") [] rfl)
  have h2 := Gate.Reachable.step _ _ h1
    (Gate.Step.acquire _ [] [] (demoJob "t=incident") rfl (by decide))
  have h3 := Gate.Reachable.step _ _ h2
    (Gate.Step.release _ [] [] (demoJob "t=incident") rfl)
  refine ⟨_, h3, ⟨rfl, rfl, rfl⟩, ?_⟩
  exact ((hall.2.2.2.2.2 _ _ _ _ h3).2.2.1).mpr
    ⟨(demoJob "t=incident",
      .ok ["https://a.example/api/now/sp/widget/widget-simple-list?t=incident"]),
      by decide, by decide⟩

theorem dispatchTables_spec (url gCk : String) (cookies : List Cookie)
    (tableList : List String) (d : Dispatch) :
    (dispatchTables url gCk cookies tableList d).spawned =
        d.spawned ++ tableList.map (fun table =>
          { url := url, table := table, gCk := gCk, cookies := cookies }) ∧
    (dispatchTables url gCk cookies tableList d).wg = d.wg + tableList.length ∧
    (dispatchTables url gCk cookies tableList d).printed = d.printed := by
  unfold dispatchTables
  induction tableList generalizing d with
  | nil => simp
  | cons t ts ih =>
    simp only [List.foldl_cons, List.map_cons, List.length_cons]
    obtain ⟨h1, h2, h3⟩ := ih
      { d with
        wg := d.wg + 1
        spawned := d.spawned ++ [{ url := url, table := t, gCk := gCk, cookies := cookies }] }
    refine ⟨?_, ?_, ?_⟩
    · rw [h1]; simp
    · rw [h2]; show d.wg + 1 + ts.length = d.wg + (ts.length + 1); omega
    · rw [h3]

/-- One round of the host loop of `main`. -/
theorem dispatch_round (benv : BootEnv) (proxy : String) (tableList : List String)
    (url : String) (d : Dispatch) :
    (match getGCKAndCookies benv url proxy with
      | (.error e, out) =>
        { d with printed := d.printed ++ out ++
            ["Error fetching g_ck for " ++ url ++ ": " ++ e ++ "\n"] }
      | (.ok (gCk, cookies), out) =>
        dispatchTables url gCk cookies tableList
          { d with printed := d.printed ++ out }).spawned =
        d.spawned ++ jobsOfHost benv proxy tableList url ∧
    (match getGCKAndCookies benv url proxy with
      | (.error e, out) =>
        { d with printed := d.printed ++ out ++
            ["Error fetching g_ck for " ++ url ++ ": " ++ e ++ "\n"] }
      | (.ok (gCk, cookies), out) =>
        dispatchTables url gCk cookies tableList
          { d with printed := d.printed ++ out }).wg =
        d.wg + (jobsOfHost benv proxy tableList url).length := by
  unfold jobsOfHost
  rcases hb : getGCKAndCookies benv url proxy with ⟨r, out⟩
  cases r with
  | error e => simp
  | ok tc =>
    obtain ⟨gCk, cookies⟩ := tc
    simp only
    obtain ⟨h1, h2, _⟩ := dispatchTables_spec url gCk cookies tableList
      { d with printed := d.printed ++ out }
    rw [h1, h2]
    simp

theorem dispatch_spec (benv : BootEnv) (proxy : String) (urls tableList : List String) :
    (dispatch benv proxy urls tableList).spawned =
        urls.flatMap (jobsOfHost benv proxy tableList) ∧
    (dispatch benv proxy urls tableList).wg =
        (urls.flatMap (jobsOfHost benv proxy tableList)).length := by
  unfold dispatch
  have hgen : ∀ (us : List String) (d : Dispatch),
      (us.foldl (fun d url =>
        match getGCKAndCookies benv url proxy with
        | (.error e, out) =>
          { d with printed := d.printed ++ out ++
              ["Error fetching g_ck for " ++ url ++ ": " ++ e ++ "\n"] }
        | (.ok (gCk, cookies), out) =>
          dispatchTables url gCk cookies tableList { d with printed := d.printed ++ out })
        d).spawned = d.spawned ++ us.flatMap (jobsOfHost benv proxy tableList) ∧
      (us.foldl (fun d url =>
        match getGCKAndCookies benv url proxy with
        | (.error e, out) =>
          { d with printed := d.printed ++ out ++
              ["Error fetching g_ck for " ++ url ++ ": " ++ e ++ "\n"] }
        | (.ok (gCk, cookies), out) =>
          dispatchTables url gCk cookies tableList { d with printed := d.printed ++ out })
        d).wg = d.wg + (us.flatMap (jobsOfHost benv proxy tableList)).length := by
    intro us
    induction us with
    | nil => intro d; simp
    | cons u us ih =>
      intro d
      simp only [List.foldl_cons, List.flatMap_cons, List.length_append]
      obtain ⟨h1, h2⟩ := dispatch_round benv proxy tableList u d
      obtain ⟨i1, i2⟩ := ih (match getGCKAndCookies benv u proxy with
        | (.error e, out) =>
          { d with printed := d.printed ++ out ++
              ["Error fetching g_ck for " ++ u ++ ": " ++ e ++ "\n"] }
        | (.ok (gCk, cookies), out) =>
          dispatchTables u gCk cookies tableList { d with printed := d.printed ++ out })
      rw [i1, i2, h1, h2]
      constructor
      · simp
      · omega
  have h := hgen urls { spawned := [], wg := 0, printed := [] }
  simpa using h

theorem jobsOfHost_length (benv : BootEnv) (proxy : String) (tableList : List String)
    (url : String) :
    (jobsOfHost benv proxy tableList url).length =
      if bootstraps benv proxy url = true then tableList.length else 0 := by
  unfold jobsOfHost bootstraps
  cases (getGCKAndCookies benv url proxy).1 with
  | error e => simp
  | ok tc => simp

theorem jobs_length (benv : BootEnv) (proxy : String) (urls tableList : List String) :
    (urls.flatMap (jobsOfHost benv proxy tableList)).length =
      (urls.filter (bootstraps benv proxy)).length * tableList.length := by
  induction urls with
  | nil => simp
  | cons u us ih =>
    simp only [List.flatMap_cons, List.length_append, ih, jobsOfHost_length, List.filter_cons]
    by_cases hb : bootstraps benv proxy u = true
    · simp only [hb, if_true, List.length_cons]
      ring
    · simp only [hb, if_false]
      simp

theorem mem_jobsOfHost (benv : BootEnv) (proxy : String) (tableList : List String)
    (url : String) (job : ProbeJob) (h : job ∈ jobsOfHost benv proxy tableList url) :
    job.url = url ∧ bootstraps benv proxy url = true ∧ job.table ∈ tableList := by
  unfold jobsOfHost at h
  unfold bootstraps
  cases hb : (getGCKAndCookies benv url proxy).1 with
  | error e => simp [hb] at h
  | ok tc =>
    simp only [hb, List.mem_map] at h
    obtain ⟨t, ht, rfl⟩ := h
    exact ⟨rfl, rfl, ht⟩

/-- C5: the goroutines started by `main` are exactly the jobs of the hosts in
order, one per table candidate for a host whose bootstrap succeeds and none
for a host whose bootstrap fails; their number is (hosts bootstrapped) times
(table candidates), equals the WaitGroup counter and is at most the capacity
`len(urls)*len(tableList)` of the channel `results`.  In every reachable state
of the run one result has been sent per job that returned; a state that is not
terminal has a next step and every step reduces the work left, so every run
ends; and at the end the number of results equals the number of jobs. -/
theorem C5_jobs_and_outcomes (benv : BootEnv) (proxy : String) (urls tableList : List String) :
    (dispatch benv proxy urls tableList).spawned =
      urls.flatMap (jobsOfHost benv proxy tableList) ∧
    (dispatch benv proxy urls tableList).spawned.length =
      (urls.filter (bootstraps benv proxy)).length * tableList.length ∧
    (dispatch benv proxy urls tableList).wg =
      (dispatch benv proxy urls tableList).spawned.length ∧
    (∀ job ∈ (dispatch benv proxy urls tableList).spawned,
      job.url ∈ urls ∧ bootstraps benv proxy job.url = true ∧ job.table ∈ tableList) ∧
    (dispatch benv proxy urls tableList).spawned.length ≤ urls.length * tableList.length ∧
    (∀ (σ : Type) (env : Env σ) (fastCheck : Bool) (w : World σ) (g : Gate σ),
      Gate.Reachable env fastCheck (dispatch benv proxy urls tableList).spawned w g →
      g.scan.results.length = g.finished.length ∧
      g.scan.results.length ≤ urls.length * tableList.length ∧
      (¬ g.terminal → ∃ g2, Gate.Step env fastCheck g g2) ∧
      (∀ g2, Gate.Step env fastCheck g g2 → g2.workLeft < g.workLeft) ∧
      (g.terminal →
        g.scan.results.length = (dispatch benv proxy urls tableList).spawned.length)) := by
  obtain ⟨hsp, hwg⟩ := dispatch_spec benv proxy urls tableList
  have hlen := jobs_length benv proxy urls tableList
  have hle : (dispatch benv proxy urls tableList).spawned.length ≤
      urls.length * tableList.length := by
    rw [hsp, hlen]
    exact Nat.mul_le_mul_right _ (List.length_filter_le _ _)
  refine ⟨hsp, by rw [hsp, hlen], by rw [hwg, hsp], ?_, hle, ?_⟩
  · intro job hjob
    rw [hsp, List.mem_flatMap] at hjob
    obtain ⟨u, hu, hmem⟩ := hjob
    obtain ⟨h1, h2, h3⟩ := mem_jobsOfHost benv proxy tableList u job hmem
    rw [h1]
    exact ⟨hu, h2, h3⟩
  · intro σ env fastCheck w g hreach
    have hinv := gate_inv env fastCheck _ w g hreach
    refine ⟨hinv.2.2.1, ?_, ?_, ?_, ?_⟩
    · exact le_trans (gate_results_le _ g hinv) hle
    · exact gate_progress env fastCheck _ g hinv
    · exact fun g2 hstep => gate_step_decreases env fastCheck g g2 hstep
    · exact gate_terminal_count _ g hinv

/-- C5 at a concrete run: of two hosts the second bootstraps; its two tables
give two jobs, and the run of the first job to its end leaves one result. -/
theorem C5_jobs_and_outcomes_witness :
    (dispatch demoBoot "" ["https://down.example", "https://a.example"]
        ["t=kb_knowledge", "t=incident"]).spawned =
      [demoJob "t=kb_knowledge", demoJob "t=incident"] ∧
    ∃ g : Gate MemFS,
      Gate.Reachable (memEnv (.ok noListResponse)) false
        (dispatch demoBoot "" ["https://down.example", "https://a.example"]
          ["t=kb_knowledge", "t=incident"]).spawned (emptyWorld 4) g ∧
      g.finished = [demoJob "t=kb_knowledge"] ∧
      g.scan.results.length = g.finished.length := by
  have hjobs : (dispatch demoBoot "" ["https://down.example", "https://a.example"]
      ["t=kb_knowledge", "t=incident"]).spawned =
      [demoJob "t=kb_knowledge", demoJob "t=incident"] := by decide
  refine ⟨hjobs, ?_⟩
  have h0 : Gate.Reachable (memEnv (.ok noListResponse)) false
      (dispatch demoBoot "" ["https://down.example", "https://a.example"]
        ["t=kb_knowledge", "t=incident"]).spawned (emptyWorld 4)
      (Gate.init (dispatch demoBoot "" ["https://down.example", "https://a.example"]
        ["t=kb_knowledge", "t=incident"]).spawned (emptyWorld 4)) := Gate.Reachable.init
  have h1 := Gate.Reachable.step _ _ h0
    (Gate.Step.spawn _ (demoJob "t=kb_knowledge") [demoJob "t=incident"]
      (by simp only [Gate.init]; exact hjobs))
  have h2 := Gate.Reachable.step _ _ h1
    (Gate.Step.acquire _ [] [] (demoJob "t=kb_knowledge") rfl (by decide))
  have h3 := Gate.Reachable.step _ _ h2
    (Gate.Step.release _ [] [] (demoJob "t=kb_knowledge") rfl)
  exact ⟨_, h3, rfl,
    ((C5_jobs_and_outcomes demoBoot "" ["https://down.example", "https://a.example"]
      ["t=kb_knowledge", "t=incident"]).2.2.2.2.2 MemFS _ _ _ _ h3).1⟩


theorem inClass_alnum (c : Char) : inClass alnumRanges c = c.isAlphanum := by
  simp only [inClass, alnumRanges, List.any_cons, List.any_nil, Bool.or_false,
    Char.isAlphanum, Char.isAlpha, Char.isUpper, Char.isLower, Char.isDigit]
  have h1 : ('a' ≤ c) = (c.val ≥ 97) := rfl
  have h2 : (c ≤ 'z') = (c.val ≤ 122) := rfl
  have h3 : ('A' ≤ c) = (c.val ≥ 65) := rfl
  have h4 : (c ≤ 'Z') = (c.val ≤ 90) := rfl
  have h5 : ('0' ≤ c) = (c.val ≥ 48) := rfl
  have h6 : (c ≤ '9') = (c.val ≤ 57) := rfl
  simp only [h1, h2, h3, h4, h5, h6]
  cases decide (c.val ≥ 97) <;> cases decide (c.val ≤ 122) <;> cases decide (c.val ≥ 65) <;>
    cases decide (c.val ≤ 90) <;> rfl

theorem mem_plusRuns (R : List (Char × Char)) (s m rest : List Char) :
    (m, rest) ∈ plusRuns R s ↔ m ≠ [] ∧ s = m ++ rest ∧ ∀ c ∈ m, inClass R c = true := by
  induction s generalizing m with
  | nil =>
    simp only [plusRuns, List.not_mem_nil, false_iff]
    rintro ⟨hne, hs, _⟩
    cases m with
    | nil => exact hne rfl
    | cons a as => simp at hs
  | cons c cs ih =>
    unfold plusRuns
    by_cases hc : inClass R c = true
    · simp only [hc, if_true, List.mem_append, List.mem_map, List.mem_singleton, Prod.mk.injEq]
      constructor
      · rintro (⟨⟨m2, r2⟩, hmem, hm, hr⟩ | ⟨hm, hr⟩)
        · simp only at hm hr
          subst hm hr
          obtain ⟨hne, hs, hall⟩ := (ih m2).mp hmem
          refine ⟨by simp, by simp [hs], ?_⟩
          intro d hd
          rcases List.mem_cons.mp hd with h | h
          · rw [h]; exact hc
          · exact hall d h
        · subst hm hr
          exact ⟨by simp, by simp, by simpa using hc⟩
      · rintro ⟨hne, hs, hall⟩
        cases m with
        | nil => exact absurd rfl hne
        | cons a as =>
          simp only [List.cons_append, List.cons.injEq] at hs
          obtain ⟨ha, hcs⟩ := hs
          subst ha
          cases as with
          | nil =>
            right
            simp at hcs
            simp [hcs]
          | cons b bs =>
            left
            refine ⟨(b :: bs, rest), (ih (b :: bs)).mpr ⟨by simp, hcs, ?_⟩, rfl, rfl⟩
            intro d hd
            exact hall d (List.mem_cons_of_mem _ hd)
    · rw [if_neg hc]
      simp only [List.not_mem_nil, false_iff]
      rintro ⟨hne, hs, hall⟩
      cases m with
      | nil => exact hne rfl
      | cons a as =>
        simp only [List.cons_append, List.cons.injEq] at hs
        exact hc (hs.1 ▸ hall a (List.mem_cons_self _ _))

theorem mem_run_str (t s : List Char) (x : List Char × List Char × List (List Char)) :
    x ∈ (Re.str t).run s ↔ ∃ rest, s = t ++ rest ∧ x = (t, rest, []) := by
  simp only [Re.run]
  by_cases hp : t.isPrefixOf s = true
  · rw [if_pos hp]
    obtain ⟨rest, hrest⟩ := List.isPrefixOf_iff_prefix.mp hp
    subst hrest
    simp only [List.mem_singleton, List.drop_left]
    constructor
    · intro hx
      exact ⟨rest, rfl, hx⟩
    · rintro ⟨r2, hr, hx⟩
      rw [List.append_cancel_left hr]
      exact hx
  · rw [if_neg hp]
    simp only [List.not_mem_nil, false_iff]
    rintro ⟨rest, hs, _⟩
    exact hp (List.isPrefixOf_iff_prefix.mpr ⟨rest, hs.symm⟩)

theorem mem_run_plusClass (R : List (Char × Char)) (s : List Char)
    (x : List Char × List Char × List (List Char)) :
    x ∈ (Re.plusClass R).run s ↔
      ∃ m rest, m ≠ [] ∧ s = m ++ rest ∧ (∀ c ∈ m, inClass R c = true) ∧ x = (m, rest, []) := by
  simp only [Re.run, List.mem_map]
  constructor
  · rintro ⟨⟨m, rest⟩, hmem, hx⟩
    obtain ⟨h1, h2, h3⟩ := (mem_plusRuns R s m rest).mp hmem
    exact ⟨m, rest, h1, h2, h3, hx.symm⟩
  · rintro ⟨m, rest, h1, h2, h3, hx⟩
    exact ⟨(m, rest), (mem_plusRuns R s m rest).mpr ⟨h1, h2, h3⟩, hx.symm⟩

theorem mem_run_group (r : Re) (s : List Char) (x : List Char × List Char × List (List Char)) :
    x ∈ (Re.group r).run s ↔ ∃ y ∈ r.run s, x = (y.1, y.2.1, y.1 :: y.2.2) := by
  simp only [Re.run, List.mem_map]
  constructor
  · rintro ⟨y, hy, hx⟩
    exact ⟨y, hy, hx.symm⟩
  · rintro ⟨y, hy, hx⟩
    exact ⟨y, hy, hx.symm⟩

theorem mem_run_cat (a b : Re) (s : List Char) (x : List Char × List Char × List (List Char)) :
    x ∈ (Re.cat a b).run s ↔
      ∃ xa ∈ a.run s, ∃ xb ∈ b.run xa.2.1, x = (xa.1 ++ xb.1, xb.2.1, xa.2.2 ++ xb.2.2) := by
  simp only [Re.run, List.mem_flatMap, List.mem_map]
  constructor
  · rintro ⟨xa, hxa, xb, hxb, hx⟩
    exact ⟨xa, hxa, xb, hxb, hx.symm⟩
  · rintro ⟨xa, hxa, xb, hxb, hx⟩
    exact ⟨xa, hxa, xb, hxb, hx.symm⟩

/-- The matches of the pattern at the start of an input. -/
theorem mem_run_gck (s : List Char) (x : List Char × List Char × List (List Char)) :
    x ∈ gckPattern.run s ↔
      ∃ tok post, s = gckOpen ++ (tok ++ '\'' :: post) ∧ tok ≠ [] ∧
        (∀ c ∈ tok, inClass alnumRanges c = true) ∧
        x = (gckOpen ++ (tok ++ ['\'']), post, [tok]) := by
  unfold gckPattern
  rw [mem_run_cat]
  constructor
  · rintro ⟨xa, hxa, xb, hxb, hx⟩
    obtain ⟨r1, hs, hxa2⟩ := (mem_run_str gckOpen s xa).mp hxa
    subst hxa2
    obtain ⟨xg, hxg, xq, hxq, hxb2⟩ := (mem_run_cat _ _ _ xb).mp hxb
    obtain ⟨y, hy, hxg2⟩ := (mem_run_group _ _ xg).mp hxg
    obtain ⟨m, rest, hne, hsplit, hall, hy2⟩ := (mem_run_plusClass _ _ y).mp hy
    subst hy2 hxg2
    obtain ⟨post, hq, hxq2⟩ := (mem_run_str _ _ xq).mp hxq
    subst hxq2 hxb2 hx
    simp only at hsplit hq ⊢
    refine ⟨m, post, ?_, hne, hall, ?_⟩
    · rw [hs, hsplit, hq]; rfl
    · simp
  · rintro ⟨tok, post, hs, hne, hall, hx⟩
    refine ⟨(gckOpen, tok ++ '\'' :: post, []), (mem_run_str _ _ _).mpr ⟨_, hs, rfl⟩,
      (tok ++ ['\''], post, [tok]), ?_, ?_⟩
    · refine (mem_run_cat _ _ _ _).mpr
        ⟨(tok, '\'' :: post, [tok]), ?_, (['\''], post, []), ?_, ?_⟩
      · exact (mem_run_group _ _ _).mpr
          ⟨(tok, '\'' :: post, []), (mem_run_plusClass _ _ _).mpr ⟨tok, _, hne, rfl, hall, rfl⟩, rfl⟩
      · exact (mem_run_str _ _ _).mpr ⟨post, rfl, rfl⟩
      · simp
    · rw [hx]
      rfl

/-- The search of `findStringSubmatch`: either no suffix of the input has a
match and the result is empty, or the result comes from the preferred match at
the first suffix that has one. -/
theorem findStringSubmatch_spec (re : Re) (body : List Char) :
    (findStringSubmatch re body = [] ∧ ∀ pre s, body = pre ++ s → re.run s = []) ∨
    (∃ pre s x more, body = pre ++ s ∧ re.run s = x :: more ∧
      findStringSubmatch re body = x.1 :: x.2.2 ∧
      ∀ pre2 s2, body = pre2 ++ s2 → pre2.length < pre.length → re.run s2 = []) := by
  induction body with
  | nil =>
    cases hrun : re.run [] with
    | nil =>
      left
      refine ⟨by simp [findStringSubmatch, hrun], ?_⟩
      intro pre s h
      have hs : s = [] := (List.append_eq_nil.mp h.symm).2
      rw [hs, hrun]
    | cons x more =>
      right
      exact ⟨[], [], x, more, rfl, hrun, by simp [findStringSubmatch, hrun],
        fun _ _ _ hlt => absurd hlt (Nat.not_lt_zero _)⟩
  | cons c cs ih =>
    cases hrun : re.run (c :: cs) with
    | cons x more =>
      right
      exact ⟨[], c :: cs, x, more, rfl, hrun, by simp [findStringSubmatch, hrun],
        fun _ _ _ hlt => absurd hlt (Nat.not_lt_zero _)⟩
    | nil =>
      have hfind : findStringSubmatch re (c :: cs) = findStringSubmatch re cs := by
        simp [findStringSubmatch, hrun]
      rcases ih with ⟨hnone, hall⟩ | ⟨pre, s, x, more, hbody, hx, hres, hfirst⟩
      · left
        refine ⟨by rw [hfind, hnone], ?_⟩
        intro pre s h
        cases pre with
        | nil =>
          simp only [List.nil_append] at h
          rw [← h, hrun]
        | cons p ps =>
          simp only [List.cons_append, List.cons.injEq] at h
          exact hall ps s h.2
      · right
        refine ⟨c :: pre, s, x, more, by simp [hbody], hx, by rw [hfind, hres], ?_⟩
        intro pre2 s2 h hlt
        cases pre2 with
        | nil =>
          simp only [List.nil_append] at h
          rw [← h, hrun]
        | cons p ps =>
          simp only [List.cons_append, List.cons.injEq] at h
          exact hfirst ps s2 h.2 (by simpa using hlt)

/-- Two token occurrences at the same place carry the same token. -/
theorem token_unique (tok tok2 post post2 : List Char)
    (h : tok ++ '\'' :: post = tok2 ++ '\'' :: post2)
    (ha : ∀ c ∈ tok, c.isAlphanum = true) (hb : ∀ c ∈ tok2, c.isAlphanum = true) :
    tok = tok2 := by
  induction tok generalizing tok2 with
  | nil =>
    cases tok2 with
    | nil => rfl
    | cons b bs =>
      simp only [List.nil_append, List.cons_append, List.cons.injEq] at h
      have := hb b (List.mem_cons_self _ _)
      rw [← h.1] at this
      exact absurd this (by decide)
  | cons a as ih =>
    cases tok2 with
    | nil =>
      simp only [List.nil_append, List.cons_append, List.cons.injEq] at h
      have := ha a (List.mem_cons_self _ _)
      rw [h.1] at this
      exact absurd this (by decide)
    | cons b bs =>
      simp only [List.cons_append, List.cons.injEq] at h
      rw [h.1, ih bs h.2 (fun c hc => ha c (List.mem_cons_of_mem _ hc))
        (fun c hc => hb c (List.mem_cons_of_mem _ hc))]

theorem tokenAt_run (body pre tok post : List Char) (h : TokenAt body pre tok post) :
    (gckOpen ++ (tok ++ ['\'']), post, [tok]) ∈ gckPattern.run (gckOpen ++ (tok ++ '\'' :: post)) :=
  (mem_run_gck _ _).mpr ⟨tok, post, rfl, h.2.1,
    fun c hc => by rw [inClass_alnum]; exact h.2.2 c hc, rfl⟩

/-- C9: given the body read, token extraction succeeds exactly when the body
contains the text `var g_ck = '`, then one or more ASCII letters or digits,
then a quote; on success the cookies are those of the jar and the token is the
run of letters and digits of the leftmost such occurrence, hence non-empty and
alphanumeric; otherwise the function fails with `g_ck not found`, printing
nothing. -/
theorem C9_token_extraction (benv : BootEnv) (urlString proxy body : String)
    (cookies : List Cookie) (hget : benv.get urlString proxy = .ok (body, cookies)) :
    ((∃ tok cs, (getGCKAndCookies benv urlString proxy).1 = .ok (tok, cs)) ↔
      ∃ pre tok post, TokenAt body.data pre tok post) ∧
    (∀ tok cs, (getGCKAndCookies benv urlString proxy).1 = .ok (tok, cs) →
      cs = cookies ∧ tok.data ≠ [] ∧ (∀ c ∈ tok.data, c.isAlphanum = true) ∧
      ∃ pre post, TokenAt body.data pre tok.data post ∧
        ∀ pre2 tok2 post2, TokenAt body.data pre2 tok2 post2 →
          pre.length ≤ pre2.length ∧ (pre2.length = pre.length → tok2 = tok.data)) ∧
    ((¬ ∃ pre tok post, TokenAt body.data pre tok post) →
      getGCKAndCookies benv urlString proxy = (.error "g_ck not found", [])) := by
  have hnomatch : ∀ pre tok post, TokenAt body.data pre tok post →
      gckPattern.run (gckOpen ++ (tok ++ '\'' :: post)) ≠ [] := by
    intro pre tok post h hnil
    have := tokenAt_run _ pre tok post h
    rw [hnil] at this
    exact List.not_mem_nil _ this
  rcases findStringSubmatch_spec gckPattern body.data with
    ⟨hnone, hall⟩ | ⟨pre, s, x, more, hbody, hx, hres, hfirst⟩
  · have hno : ¬ ∃ pre tok post, TokenAt body.data pre tok post := by
      rintro ⟨pre, tok, post, h⟩
      exact hnomatch pre tok post h (hall pre _ h.1)
    have hout : getGCKAndCookies benv urlString proxy = (.error "g_ck not found", []) := by
      unfold getGCKAndCookies
      simp [hget, hnone]
    refine ⟨?_, ?_, fun _ => hout⟩
    · rw [hout]
      simp only [reduceCtorEq, exists_false, false_iff]
      exact hno
    · intro tok cs h
      rw [hout] at h
      cases h
  · have hmem : x ∈ gckPattern.run s := by rw [hx]; exact List.mem_cons_self _ _
    obtain ⟨tok, post, hs, hne, hall, hxeq⟩ := (mem_run_gck s x).mp hmem
    have halnum : ∀ c ∈ tok, c.isAlphanum = true := fun c hc => by
      rw [← inClass_alnum]; exact hall c hc
    have htok : TokenAt body.data pre tok post := ⟨by rw [hbody, hs], hne, halnum⟩
    have hout : getGCKAndCookies benv urlString proxy =
        (.ok (String.mk tok, cookies),
          ["X-UserToken: " ++ String.mk tok ++ "\n",
            "Cookie: " ++ String.intercalate "; " (cookies.map benv.cookieString) ++ "\n\n\n"]) := by
      unfold getGCKAndCookies
      simp [hget, hres, hxeq]
    refine ⟨?_, ?_, ?_⟩
    · rw [hout]
      exact ⟨fun _ => ⟨pre, tok, post, htok⟩, fun _ => ⟨_, _, rfl⟩⟩
    · intro t cs h
      rw [hout] at h
      simp only [Except.ok.injEq, Prod.mk.injEq] at h
      obtain ⟨ht, hcs⟩ := h
      subst ht
      refine ⟨hcs.symm, hne, halnum, pre, post, htok, ?_⟩
      intro pre2 tok2 post2 h2
      have hle : pre.length ≤ pre2.length := by
        by_contra hlt
        exact hnomatch pre2 tok2 post2 h2 (hfirst pre2 _ h2.1 (Nat.lt_of_not_le hlt))
      refine ⟨hle, fun hlen => ?_⟩
      have hsame : pre2 ++ (gckOpen ++ (tok2 ++ '\'' :: post2)) =
          pre ++ (gckOpen ++ (tok ++ '\'' :: post)) := by
        rw [← h2.1, htok.1]
      have hsuf := (List.append_inj hsame hlen).2
      exact token_unique tok2 tok post2 post (List.append_cancel_left hsuf) h2.2.2 halnum
    · intro hno
      exact absurd ⟨pre, tok, post, htok⟩ hno
/-- C9 at a concrete page: the token `T1` is found. -/
theorem C9_token_extraction_witness :
    ∃ pre post, TokenAt "<script>var g_ck = 'T1';</script>".data pre "T1".data post :=
  match (C9_token_extraction demoBoot "https://a.example" ""
      "<script>var g_ck = 'T1';</script>" [] rfl).2.1 "T1" [] (by decide) with
  | ⟨_, _, _, pre, post, h, _⟩ => ⟨pre, post, h⟩

theorem readTableNamesFromFile_ok (lines : List String) :
    readTableNamesFromFile (.ok lines) = .ok (lines.map fun line => "t=" ++ line) := by
  unfold readTableNamesFromFile
  have hgen : ∀ (ls acc : List String),
      ls.foldl (fun acc line => acc ++ ["t=" ++ line]) acc =
        acc ++ ls.map fun line => "t=" ++ line := by
    intro ls
    induction ls with
    | nil => intro acc; simp
    | cons l ls ih => intro acc; simp [ih]
  simp [hgen]

theorem fileNameOf_pathComps (hostname table : String)
    (hs : '/' ∉ (firstLabel hostname).data)
    (hn : '/' ∉ (stringsTrimPrefix table "t=").data) :
    (fileNameOf (firstLabel hostname) table).data =
      joinSlash (pathComps (firstLabel hostname).data
        ((stringsTrimPrefix table "t=").data ++ ".json".data)) := by
  unfold pathComps
  by_cases hl : (firstLabel hostname).data = []
  · rw [if_pos hl]
    exact fileNameOf_chars_empty _ _ hl hn
  · rw [if_neg hl]
    exact fileNameOf_chars _ _ (plain_label hostname hl hs) hn

theorem pathComps_no_slash (label file : List Char) (hl : '/' ∉ label) (hf : '/' ∉ file) :
    ∀ c ∈ pathComps label file, '/' ∉ c := by
  intro c hc
  unfold pathComps at hc
  by_cases h0 : label = []
  · rw [if_pos h0] at hc
    simp only [List.mem_cons, List.mem_singleton, List.not_mem_nil, or_false] at hc
    rcases hc with h | h
    · rw [h]; exact plain_result.2.1
    · rw [h]; exact hf
  · rw [if_neg h0] at hc
    simp only [List.mem_cons, List.mem_singleton, List.not_mem_nil, or_false] at hc
    rcases hc with h | h | h
    · rw [h]; exact plain_result.2.1
    · rw [h]; exact hl
    · rw [h]; exact hf

theorem pathComps_ne_nil (label file : List Char) : pathComps label file ≠ [] := by
  unfold pathComps
  by_cases h0 : label = []
  · rw [if_pos h0]; simp
  · rw [if_neg h0]; simp

theorem pathComps_inj (l1 f1 l2 f2 : List Char)
    (h : pathComps l1 f1 = pathComps l2 f2) : l1 = l2 ∧ f1 = f2 := by
  unfold pathComps at h
  by_cases h1 : l1 = [] <;> by_cases h2 : l2 = []
  · rw [if_pos h1, if_pos h2] at h
    simp only [List.cons.injEq, and_true, true_and] at h
    exact ⟨h1.trans h2.symm, h⟩
  · rw [if_pos h1, if_neg h2] at h
    simp at h
  · rw [if_neg h1, if_pos h2] at h
    simp at h
  · rw [if_neg h1, if_neg h2] at h
    simp only [List.cons.injEq, and_true, true_and] at h
    exact h

/-- C7 fails as stated: two jobs for different hosts whose hostnames both
begin with the label `a` create the same file `result/a/incident.json`, one
after the other; and the different tables `t=x` and `t=./x` of one host have
the same file. -/
theorem C7_counterexample :
    ((jobAt "https://a.example.com" "t=incident").url ≠
        (jobAt "https://a.example.org" "t=incident").url ∧
      createdFiles
        (jobBody (memEnv (.ok (leakResponse (.arr [.str "r"])))) false
          (jobAt "https://a.example.org" "t=incident")
          (jobBody (memEnv (.ok (leakResponse (.arr [.str "r"])))) false
            (jobAt "https://a.example.com" "t=incident")
            (initScan (emptyWorld 4)))).world.trace =
        ["result/a/incident.json", "result/a/incident.json"]) ∧
    (("t=x" : String) ≠ "t=./x" ∧
      fileNameOf (firstLabel "a.example.com") "t=x" =
        fileNameOf (firstLabel "a.example.com") "t=./x") := by
  decide

/-- C7 amended: for hostnames whose leading label has no slash and for table
candidates `t=` followed by a name without a slash, two jobs have the same
file exactly when their leading labels are equal and their table candidates
are equal; when the label is not empty that file is
`result/<label>/<name>.json`. -/
theorem C7_paths (h1 h2 n1 n2 : String)
    (hs1 : '/' ∉ (firstLabel h1).data) (hs2 : '/' ∉ (firstLabel h2).data)
    (hn1 : '/' ∉ n1.data) (hn2 : '/' ∉ n2.data) :
    (fileNameOf (firstLabel h1) ("t=" ++ n1) = fileNameOf (firstLabel h2) ("t=" ++ n2) ↔
      firstLabel h1 = firstLabel h2 ∧ ("t=" ++ n1 : String) = "t=" ++ n2) ∧
    ((firstLabel h1).data ≠ [] →
      fileNameOf (firstLabel h1) ("t=" ++ n1) =
        "result/" ++ firstLabel h1 ++ "/" ++ n1 ++ ".json") := by
  have ht1 : '/' ∉ (stringsTrimPrefix ("t=" ++ n1) "t=").data := by
    rw [trimPrefix_table]; exact hn1
  have ht2 : '/' ∉ (stringsTrimPrefix ("t=" ++ n2) "t=").data := by
    rw [trimPrefix_table]; exact hn2
  constructor
  · constructor
    · intro heq
      have hdata := congrArg String.data heq
      rw [fileNameOf_pathComps h1 _ hs1 ht1, fileNameOf_pathComps h2 _ hs2 ht2] at hdata
      have hsplit := congrArg (splitChar '/') hdata
      rw [splitChar_joinSlash _ (pathComps_ne_nil _ _)
          (pathComps_no_slash _ _ hs1 (plain_json _ ht1).2.1),
        splitChar_joinSlash _ (pathComps_ne_nil _ _)
          (pathComps_no_slash _ _ hs2 (plain_json _ ht2).2.1)] at hsplit
      obtain ⟨hl, hf⟩ := pathComps_inj _ _ _ _ hsplit
      rw [trimPrefix_table, trimPrefix_table] at hf
      have hn : n1 = n2 := String.ext (List.append_cancel_right hf)
      exact ⟨String.ext hl, by rw [hn]⟩
    · rintro ⟨hl, ht⟩
      rw [hl, ht]
  · intro hne
    have h := fileNameOf_literal h1 ("t=" ++ n1) hne hs1 ht1
    rw [trimPrefix_table] at h
    exact h

/-- C7 amended, at two concrete jobs that differ in the table. -/
theorem C7_paths_witness :
    fileNameOf (firstLabel "a.example.com") ("t=" ++ "incident") = "result/a/incident.json" ∧
    fileNameOf (firstLabel "a.example.com") ("t=" ++ "incident") ≠
      fileNameOf (firstLabel "a.example.com") ("t=" ++ "kb_knowledge") := by
  have h := C7_paths "a.example.com" "a.example.com" "incident" "kb_knowledge"
    (by decide) (by decide) (by decide) (by decide)
  refine ⟨(h.2 (by decide)).trans (by decide), fun heq => ?_⟩
  exact absurd (h.1.mp heq).2 (by decide)

end ListScan
